import Mathlib

set_option maxRecDepth 100000

/-
Verification of the document identity / deduplication core of the `jam`
repository (src/jam/ir/document_store/base/store.py, src/jam/struct/core/struct.py).
The Python code is shallowly embedded: Python values are modelled by `PyVal`,
Python dicts by insertion-ordered association lists with Python's
replace-in-place/append-at-end assignment semantics, machine integers by `Nat`
with explicit reduction modulo 2^64 / 2^32, and raising code by `Except`.
-/

namespace Jam

/-- A Python value as it appears in the document-store code: strings, ints,
booleans, `None`, and (string-keyed, insertion-ordered) dicts. -/
inductive PyVal where
  | str (s : String)
  | int (n : Int)
  | bool (b : Bool)
  | vnone
  | dict (d : List (String × PyVal))

/-- Python dict lookup (`d[k]` / `d.get(k)`): first (unique) binding of `k`. -/
def dget {α : Type} : List (String × α) → String → Option α
  | [], _ => Option.none
  | kv :: t, k => if kv.1 = k then some kv.2 else dget t k

/-- Python dict assignment `d[k] = v`: replaces the value in place if `k` is
already bound (keeping its position), otherwise appends the new binding. -/
def dput {α : Type} : List (String × α) → String → α → List (String × α)
  | [], k, v => [(k, v)]
  | kv :: t, k, v => if kv.1 = k then (k, v) :: t else kv :: dput t k v

/-- Python truthiness of a `PyVal` (`bool(v)`). -/
def pyTruthy : PyVal → Bool
  | .str s => !(s = "")
  | .int n => !(n = 0)
  | .bool b => b
  | .vnone => false
  | .dict d => !d.isEmpty

mutual

/-- Python `repr` of a value (strings quoted), as used inside containers. -/
def pyRepr : PyVal → String
  | .str s => "\x27" ++ s ++ "\x27"
  | .int n => toString n
  | .bool b => if b then "True" else "False"
  | .vnone => "None"
  | .dict d => "\x7b" ++ pyReprEntries d ++ "\x7d"

/-- Comma-separated `repr` of the entries of a dict. -/
def pyReprEntries : List (String × PyVal) → String
  | [] => ""
  | [(k, v)] => "\x27" ++ k ++ "\x27: " ++ pyRepr v
  | (k, v) :: t => "\x27" ++ k ++ "\x27: " ++ pyRepr v ++ ", " ++ pyReprEntries t

end

/-- Python `str` of a value: identity on strings, `repr`-like elsewhere. -/
def pyStr : PyVal → String
  | .str s => s
  | v => pyRepr v

/-- Lower-case hex digit for `n < 16`. -/
def hexDigitChar (n : Nat) : Char :=
  if n < 10 then Char.ofNat (48 + n) else Char.ofNat (87 + n)

/-- Fuelled big-endian accumulation of the base-16 digits of `n`. -/
def hexLoop : Nat → Nat → List Char → List Char
  | 0, _, acc => acc
  | f + 1, n, acc => if n = 0 then acc else hexLoop f (n / 16) (hexDigitChar (n % 16) :: acc)

/-- Minimal-width lower-case hex rendering of a natural number, as produced by
Python's `"x"` format (the fuel 200 covers every number below 16^200, far above
the 128-bit values this code formats). -/
def hexStr (n : Nat) : String :=
  if n = 0 then "0" else String.mk (hexLoop 200 n [])

/-- Python `"\x7b:02x\x7d".format n`: minimal-width hex, zero-padded on the
left to a minimum width of 2. -/
def pyFmt02x (n : Nat) : String :=
  let s := hexStr n
  if s.length < 2 then "0" ++ s else s

/-- UTF-8 encoding of a Unicode code point. -/
def utf8Bytes (n : Nat) : List Nat :=
  if n < 128 then [n]
  else if n < 2048 then [192 + n / 64, 128 + n % 64]
  else if n < 65536 then [224 + n / 4096, 128 + (n / 64) % 64, 128 + n % 64]
  else [240 + n / 262144, 128 + (n / 4096) % 64, 128 + (n / 64) % 64, 128 + n % 64]

/-- `s.encode("utf-8")` as a list of byte values. -/
def strBytes (s : String) : List Nat :=
  (s.data.map (fun c => utf8Bytes c.toNat)).flatten

/-- 2^64, the modulus of the 64-bit arithmetic in MurmurHash3. -/
def M64 : Nat := 18446744073709551616

/-- 64-bit left rotation of `x < 2^64` by `r` bits. -/
def rotl64 (x r : Nat) : Nat :=
  (x % 2 ^ (64 - r)) * 2 ^ r + x / 2 ^ (64 - r)

/-- The `fmix64` finalization mix of MurmurHash3. -/
def fmix64 (k : Nat) : Nat :=
  let k := k ^^^ (k >>> 33)
  let k := (k * 0xff51afd7ed558ccd) % M64
  let k := k ^^^ (k >>> 33)
  let k := (k * 0xc4ceb9fe1a85ec53) % M64
  k ^^^ (k >>> 33)

/-- Little-endian value of a list of bytes. -/
def le64 : List Nat → Nat
  | [] => 0
  | b :: t => b + 256 * le64 t

/-- First multiplicative constant of MurmurHash3 x64-128. -/
def mc1 : Nat := 0x87c37b91114253d5

/-- Second multiplicative constant of MurmurHash3 x64-128. -/
def mc2 : Nat := 0x4cf5ad432745937f

/-- MurmurHash3 x64-128 body loop: consumes 16-byte blocks, returning the two
state words and the remaining tail. -/
def mm3Blocks : Nat → Nat → List Nat → Nat × Nat × List Nat
  | h1, h2, b0 :: b1 :: b2 :: b3 :: b4 :: b5 :: b6 :: b7 ::
            b8 :: b9 :: b10 :: b11 :: b12 :: b13 :: b14 :: b15 :: rest =>
    let k1 := le64 [b0, b1, b2, b3, b4, b5, b6, b7]
    let k2 := le64 [b8, b9, b10, b11, b12, b13, b14, b15]
    let k1 := (k1 * mc1) % M64
    let k1 := rotl64 k1 31
    let k1 := (k1 * mc2) % M64
    let h1 := h1 ^^^ k1
    let h1 := rotl64 h1 27
    let h1 := (h1 + h2) % M64
    let h1 := (h1 * 5 + 0x52dce729) % M64
    let k2 := (k2 * mc2) % M64
    let k2 := rotl64 k2 33
    let k2 := (k2 * mc1) % M64
    let h2 := h2 ^^^ k2
    let h2 := rotl64 h2 31
    let h2 := (h2 + h1) % M64
    let h2 := (h2 * 5 + 0x38495ab5) % M64
    mm3Blocks h1 h2 rest
  | h1, h2, tail => (h1, h2, tail)

/-- MurmurHash3 x64-128 tail handling for the final 0–15 bytes. -/
def mm3Tail (h1 h2 : Nat) (tail : List Nat) : Nat × Nat :=
  let t8 := tail.drop 8
  let h2 :=
    if t8.isEmpty then h2
    else
      let k2 := le64 t8
      let k2 := (k2 * mc2) % M64
      let k2 := rotl64 k2 33
      let k2 := (k2 * mc1) % M64
      h2 ^^^ k2
  let h1 :=
    if tail.isEmpty then h1
    else
      let k1 := le64 (tail.take 8)
      let k1 := (k1 * mc1) % M64
      let k1 := rotl64 k1 31
      let k1 := (k1 * mc2) % M64
      h1 ^^^ k1
  (h1, h2)

/-- MurmurHash3 x64-128 of a byte string with seed 0, combined into a single
128-bit value exactly as Python's `mmh3.hash128(.., signed=False)` does
(`h1` is the low quadword, `h2` the high one). -/
def mmh3hash128bytes (bs : List Nat) : Nat :=
  let n := bs.length
  let r := mm3Blocks 0 0 bs
  let ht := mm3Tail r.1 r.2.1 r.2.2
  let h1 := ht.1 ^^^ n
  let h2 := ht.2 ^^^ n
  let h1 := (h1 + h2) % M64
  let h2 := (h2 + h1) % M64
  let h1 := fmix64 h1
  let h2 := fmix64 h2
  let h1 := (h1 + h2) % M64
  let h2 := (h2 + h1) % M64
  h1 + h2 * M64

/-- `mmh3.hash128(text, signed=False)` on a Python `str`: the hash of its
UTF-8 encoding. -/
def mmh3hash128 (s : String) : Nat := mmh3hash128bytes (strBytes s)

/-- 2^32, the modulus of the 32-bit arithmetic in MD5/SHA-1. -/
def M32 : Nat := 4294967296

/-- 32-bit left rotation of `x < 2^32` by `r` bits. -/
def rotl32 (x r : Nat) : Nat :=
  (x % 2 ^ (32 - r)) * 2 ^ r + x / 2 ^ (32 - r)

/-- `k` bytes of `n`, little-endian. -/
def leBytes : Nat → Nat → List Nat
  | 0, _ => []
  | k + 1, n => (n % 256) :: leBytes k (n / 256)

/-- MD5 padding: a `0x80` byte, zeros to 56 mod 64, then the 64-bit
little-endian bit length. -/
def md5Pad (msg : List Nat) : List Nat :=
  let len := msg.length
  let z := (120 - ((len + 1) % 64)) % 64
  msg ++ [128] ++ List.replicate z 0 ++ leBytes 8 (len * 8)

/-- A 64-byte block as 16 little-endian 32-bit words. -/
def leWords32 : List Nat → List Nat
  | b0 :: b1 :: b2 :: b3 :: rest =>
      (b0 + 256 * b1 + 65536 * b2 + 16777216 * b3) :: leWords32 rest
  | _ => []

/-- The 64 MD5 round constants, `floor (abs (sin (i + 1)) * 2 ^ 32)`. -/
def md5K : List Nat :=
  [0xd76aa478, 0xe8c7b756, 0x242070db, 0xc1bdceee, 0xf57c0faf, 0x4787c62a, 0xa8304613, 0xfd469501,
   0x698098d8, 0x8b44f7af, 0xffff5bb1, 0x895cd7be, 0x6b901122, 0xfd987193, 0xa679438e, 0x49b40821,
   0xf61e2562, 0xc040b340, 0x265e5a51, 0xe9b6c7aa, 0xd62f105d, 0x02441453, 0xd8a1e681, 0xe7d3fbc8,
   0x21e1cde6, 0xc33707d6, 0xf4d50d87, 0x455a14ed, 0xa9e3e905, 0xfcefa3f8, 0x676f02d9, 0x8d2a4c8a,
   0xfffa3942, 0x8771f681, 0x6d9d6122, 0xfde5380c, 0xa4beea44, 0x4bdecfa9, 0xf6bb4b60, 0xbebfbc70,
   0x289b7ec6, 0xeaa127fa, 0xd4ef3085, 0x04881d05, 0xd9d4d039, 0xe6db99e5, 0x1fa27cf8, 0xc4ac5665,
   0xf4292244, 0x432aff97, 0xab9423a7, 0xfc93a039, 0x655b59c3, 0x8f0ccc92, 0xffeff47d, 0x85845dd1,
   0x6fa87e4f, 0xfe2ce6e0, 0xa3014314, 0x4e0811a1, 0xf7537e82, 0xbd3af235, 0x2ad7d2bb, 0xeb86d391]

/-- The 64 MD5 per-round shift amounts. -/
def md5S : List Nat :=
  [7, 12, 17, 22, 7, 12, 17, 22, 7, 12, 17, 22, 7, 12, 17, 22,
   5, 9, 14, 20, 5, 9, 14, 20, 5, 9, 14, 20, 5, 9, 14, 20,
   4, 11, 16, 23, 4, 11, 16, 23, 4, 11, 16, 23, 4, 11, 16, 23,
   6, 10, 15, 21, 6, 10, 15, 21, 6, 10, 15, 21, 6, 10, 15, 21]

/-- The MD5 nonlinear functions F, G, H, I, selected by the round index. -/
def md5F (i b c d : Nat) : Nat :=
  if i < 16 then (b &&& c) ||| ((b ^^^ 0xffffffff) &&& d)
  else if i < 32 then (d &&& b) ||| ((d ^^^ 0xffffffff) &&& c)
  else if i < 48 then b ^^^ c ^^^ d
  else c ^^^ (b ||| (d ^^^ 0xffffffff))

/-- The MD5 message-word index for round `i`. -/
def md5G (i : Nat) : Nat :=
  if i < 16 then i
  else if i < 32 then (5 * i + 1) % 16
  else if i < 48 then (3 * i + 5) % 16
  else (7 * i) % 16

/-- One MD5 round on the state `(a, b, c, d)`. -/
def md5Step (m : List Nat) (st : Nat × Nat × Nat × Nat) (i : Nat) : Nat × Nat × Nat × Nat :=
  let a := st.1
  let b := st.2.1
  let c := st.2.2.1
  let d := st.2.2.2
  let f := (md5F i b c d + a + md5K.getD i 0 + m.getD (md5G i) 0) % M32
  (d, (b + rotl32 f (md5S.getD i 0)) % M32, b, c)

/-- Process one 64-byte MD5 block. -/
def md5Chunk (st : Nat × Nat × Nat × Nat) (block : List Nat) : Nat × Nat × Nat × Nat :=
  let m := leWords32 block
  let r := (List.range 64).foldl (md5Step m) st
  ((st.1 + r.1) % M32, (st.2.1 + r.2.1) % M32,
   (st.2.2.1 + r.2.2.1) % M32, (st.2.2.2 + r.2.2.2) % M32)

/-- Fuelled iteration over the 64-byte blocks of a padded message. -/
def md5Chunks : Nat → Nat × Nat × Nat × Nat → List Nat → Nat × Nat × Nat × Nat
  | 0, st, _ => st
  | _ + 1, st, [] => st
  | f + 1, st, l => md5Chunks f (md5Chunk st (l.take 64)) (l.drop 64)

/-- MD5 digest (16 bytes) of a byte string. -/
def md5Bytes (msg : List Nat) : List Nat :=
  let padded := md5Pad msg
  let r := md5Chunks padded.length (0x67452301, 0xefcdab89, 0x98badcfe, 0x10325476) padded
  leBytes 4 r.1 ++ leBytes 4 r.2.1 ++ leBytes 4 r.2.2.1 ++ leBytes 4 r.2.2.2

/-- SHA-1 padding: like MD5 but with a big-endian bit length. -/
def sha1Pad (msg : List Nat) : List Nat :=
  let len := msg.length
  let z := (120 - ((len + 1) % 64)) % 64
  msg ++ [128] ++ List.replicate z 0 ++ (leBytes 8 (len * 8)).reverse

/-- A 64-byte block as 16 big-endian 32-bit words. -/
def beWords32 : List Nat → List Nat
  | b0 :: b1 :: b2 :: b3 :: rest =>
      (b3 + 256 * b2 + 65536 * b1 + 16777216 * b0) :: beWords32 rest
  | _ => []

/-- SHA-1 message-schedule extension: appends one derived word per fuel step. -/
def sha1Ext : Nat → List Nat → List Nat
  | 0, w => w
  | f + 1, w =>
      let i := w.length
      sha1Ext f (w ++ [rotl32 (w.getD (i - 3) 0 ^^^ w.getD (i - 8) 0 ^^^
        w.getD (i - 14) 0 ^^^ w.getD (i - 16) 0) 1])

/-- The SHA-1 round function and constant for round `i`. -/
def sha1FK (i b c d : Nat) : Nat × Nat :=
  if i < 20 then ((b &&& c) ||| ((b ^^^ 0xffffffff) &&& d), 0x5a827999)
  else if i < 40 then (b ^^^ c ^^^ d, 0x6ed9eba1)
  else if i < 60 then ((b &&& c) ||| (b &&& d) ||| (c &&& d), 0x8f1bbcdc)
  else (b ^^^ c ^^^ d, 0xca62c1d6)

/-- One SHA-1 round on the state `(a, b, c, d, e)`. -/
def sha1Step (w : List Nat) (st : Nat × Nat × Nat × Nat × Nat) (i : Nat) :
    Nat × Nat × Nat × Nat × Nat :=
  let a := st.1
  let b := st.2.1
  let c := st.2.2.1
  let d := st.2.2.2.1
  let e := st.2.2.2.2
  let fk := sha1FK i b c d
  ((rotl32 a 5 + fk.1 + e + fk.2 + w.getD i 0) % M32, a, rotl32 b 30, c, d)

/-- Process one 64-byte SHA-1 block. -/
def sha1Chunk (st : Nat × Nat × Nat × Nat × Nat) (block : List Nat) :
    Nat × Nat × Nat × Nat × Nat :=
  let w := sha1Ext 64 (beWords32 block)
  let r := (List.range 80).foldl (sha1Step w) st
  ((st.1 + r.1) % M32, (st.2.1 + r.2.1) % M32, (st.2.2.1 + r.2.2.1) % M32,
   (st.2.2.2.1 + r.2.2.2.1) % M32, (st.2.2.2.2 + r.2.2.2.2) % M32)

/-- Fuelled iteration over the 64-byte blocks of a padded message. -/
def sha1Chunks : Nat → Nat × Nat × Nat × Nat × Nat → List Nat → Nat × Nat × Nat × Nat × Nat
  | 0, st, _ => st
  | _ + 1, st, [] => st
  | f + 1, st, l => sha1Chunks f (sha1Chunk st (l.take 64)) (l.drop 64)

/-- SHA-1 digest (20 bytes) of a byte string. -/
def sha1Bytes (msg : List Nat) : List Nat :=
  let padded := sha1Pad msg
  let r := sha1Chunks padded.length
    (0x67452301, 0xefcdab89, 0x98badcfe, 0x10325476, 0xc3d2e1f0) padded
  (leBytes 4 r.1).reverse ++ (leBytes 4 r.2.1).reverse ++ (leBytes 4 r.2.2.1).reverse ++
    (leBytes 4 r.2.2.2.1).reverse ++ (leBytes 4 r.2.2.2.2).reverse

/-- Hex rendering of one byte (two lower-case digits). -/
def byteHex (b : Nat) : String := String.mk [hexDigitChar (b / 16 % 16), hexDigitChar (b % 16)]

/-- Hex rendering of a byte string. -/
def bytesHex (bs : List Nat) : String := String.join (bs.map byteHex)

/-- The bytes of the fixed namespace constant `uuid.NAMESPACE_DNS`. -/
def nsDNSBytes : List Nat :=
  [0x6b, 0xa7, 0xb8, 0x10, 0x9d, 0xad, 0x11, 0xd1,
   0x80, 0xb4, 0x00, 0xc0, 0x4f, 0xd4, 0x30, 0xc8]

/-- Build RFC-4122 UUID bytes from a digest: keep 16 bytes, overwrite the
version nibble of byte 6 and the variant bits of byte 8. -/
def uuidFromBytes (version : Nat) (bs : List Nat) : List Nat :=
  let b := bs.take 16
  let b := b.set 6 (b.getD 6 0 % 16 + 16 * version)
  b.set 8 (b.getD 8 0 % 64 + 128)

/-- Canonical 8-4-4-4-12 string form of 16 UUID bytes. -/
def uuidStr (b : List Nat) : String :=
  bytesHex (b.take 4) ++ "-" ++ bytesHex ((b.drop 4).take 2) ++ "-" ++
    bytesHex ((b.drop 6).take 2) ++ "-" ++ bytesHex ((b.drop 8).take 2) ++ "-" ++
    bytesHex (b.drop 10)

/-- `str (uuid.uuid3 ns name)`: MD5-based name UUID over the namespace bytes
followed by the UTF-8 name. -/
def uuid3 (nsBytes : List Nat) (name : String) : String :=
  uuidStr (uuidFromBytes 3 (md5Bytes (nsBytes ++ strBytes name)))

/-- `str (uuid.uuid5 ns name)`: SHA-1-based name UUID. -/
def uuid5 (nsBytes : List Nat) (name : String) : String :=
  uuidStr (uuidFromBytes 5 (sha1Bytes (nsBytes ++ strBytes name)))

/-- The `Document` record, with the attributes assigned by `Document.__init__`
in their `__dict__` insertion order (`id` is set last and always a string). -/
structure Document where
  text : PyVal
  score : PyVal
  probability : PyVal
  question : PyVal
  meta : PyVal
  embedding : PyVal
  id : String

/-- `Document._get_id`: dispatches on `uuid_type` (`None` → mmh3 128-bit hash
rendered with `"\x7b:02x\x7d"`, `"uuid3"`/`"uuid5"` → RFC-4122 name UUIDs over
`uuid.NAMESPACE_DNS`, anything else → `ValueError`); the `id_hash_keys`
argument is accepted but never used by the source. -/
def getId (text : PyVal) (_idHashKeys : PyVal) (uuidType : PyVal) : Except String String :=
  match uuidType with
  | PyVal.vnone =>
      match text with
      | PyVal.str s => Except.ok (pyFmt02x (mmh3hash128 s))
      | _ => Except.error "TypeError: mmh3.hash128 requires str or bytes"
  | PyVal.str u =>
      if u = "uuid3" then
        match text with
        | PyVal.str s => Except.ok (uuid3 nsDNSBytes s)
        | _ => Except.error "TypeError: name must be str"
      else if u = "uuid5" then
        match text with
        | PyVal.str s => Except.ok (uuid5 nsDNSBytes s)
        | _ => Except.error "TypeError: name must be str"
      else Except.error "Choose either \"uuid3\" or \"uuid5\" or None"
  | _ => Except.error "Choose either \"uuid3\" or \"uuid5\" or None"

/-- `Document.__init__`: `meta or \x7b\x7d` normalizes falsy meta to an empty
dict; a supplied (non-`None`) id is stringified verbatim, otherwise the id is
derived by `_get_id`. -/
def mkDocument (text : PyVal) (id : PyVal) (score : PyVal) (probability : PyVal)
    (question : PyVal) (meta : PyVal) (embedding : PyVal) (idHashKeys : PyVal)
    (uuidType : PyVal) : Except String Document :=
  let metaV := if pyTruthy meta then meta else PyVal.dict []
  match id with
  | PyVal.vnone =>
      match getId text idHashKeys uuidType with
      | Except.ok i => Except.ok ⟨text, score, probability, question, metaV, embedding, i⟩
      | Except.error e => Except.error e
  | v => Except.ok ⟨text, score, probability, question, metaV, embedding, pyStr v⟩

/-- `Document.to_dict`: emits `self.__dict__` in insertion order, renaming any
attribute that occurs as a value of `field_map` to the corresponding key
(via the inverted map, later duplicates winning as in a dict comprehension). -/
def toDict (doc : Document) (fieldMap : List (String × String)) : List (String × PyVal) :=
  let invFieldMap := fieldMap.foldl (fun acc kv => dput acc kv.2 kv.1) []
  let attrs : List (String × PyVal) :=
    [("text", doc.text), ("score", doc.score), ("probability", doc.probability),
     ("question", doc.question), ("meta", doc.meta), ("embedding", doc.embedding),
     ("id", PyVal.str doc.id)]
  attrs.foldl (fun acc kv =>
    match dget invFieldMap kv.1 with
    | some k2 => dput acc k2 kv.2
    | Option.none => dput acc kv.1 kv.2) []

/-- The recognized constructor-argument names of `Document.from_dict`. -/
def initArgs : List String :=
  ["text", "id", "score", "probability", "question", "meta", "embedding"]

/-- `Document.from_dict`: works on a deep copy of the input, ensures a `meta`
entry, folds every key that is neither a recognized field nor a `field_map` key
into the copied `meta` dict, rebuilds the argument dict (renaming `field_map`
keys), optionally threads a truthy `uuid_type`, and calls the constructor with
the result as keyword arguments (a Python `TypeError` — item assignment on a
non-dict `meta`, a missing `text`, or an unexpected keyword — is an error). -/
def fromDict (dict : List (String × PyVal)) (fieldMap : List (String × String))
    (uuidType : PyVal) : Except String Document :=
  let d0 := if (dget dict "meta").isSome then dict else dput dict "meta" (PyVal.dict [])
  let unknowns := d0.filter (fun kv =>
    !(initArgs.contains kv.1) && (dget fieldMap kv.1).isNone)
  let folded : Option (List (String × PyVal)) :=
    if unknowns.isEmpty then some d0
    else
      match dget d0 "meta" with
      | some (PyVal.dict ml) =>
          some (dput d0 "meta"
            (PyVal.dict (unknowns.foldl (fun acc kv => dput acc kv.1 kv.2) ml)))
      | _ => Option.none
  match folded with
  | Option.none => Except.error "TypeError: object does not support item assignment"
  | some d1 =>
      let newDoc := d1.foldl (fun acc kv =>
        if initArgs.contains kv.1 then dput acc kv.1 kv.2
        else
          match dget fieldMap kv.1 with
          | some k2 => dput acc k2 kv.2
          | Option.none => acc) []
      let newDoc := if pyTruthy uuidType then dput newDoc "uuid_type" uuidType else newDoc
      if newDoc.all (fun kv =>
          initArgs.contains kv.1 || kv.1 == "uuid_type" || kv.1 == "id_hash_keys") then
        match dget newDoc "text" with
        | Option.none => Except.error "TypeError: missing required argument text"
        | some t =>
            mkDocument t ((dget newDoc "id").getD PyVal.vnone)
              ((dget newDoc "score").getD PyVal.vnone)
              ((dget newDoc "probability").getD PyVal.vnone)
              ((dget newDoc "question").getD PyVal.vnone)
              ((dget newDoc "meta").getD PyVal.vnone)
              ((dget newDoc "embedding").getD PyVal.vnone)
              ((dget newDoc "id_hash_keys").getD PyVal.vnone)
              ((dget newDoc "uuid_type").getD PyVal.vnone)
      else Except.error "TypeError: unexpected keyword argument"

/-- The `Label` record, fields in `__init__` assignment order. -/
structure Label where
  id : String
  createdAt : Option String
  updatedAt : Option String
  question : String
  answer : String
  isCorrectAnswer : Bool
  isCorrectDocument : Bool
  origin : String
  documentId : Option String
  offsetStartInDoc : Option Int
  noAnswer : Option Bool
  modelId : Option Int
deriving DecidableEq

/-- `Label.__init__`: a truthy supplied id is stringified and kept, otherwise a
fresh `uuid4` token (passed here explicitly as `freshUuid`, since it is the
only randomized input) is used. -/
def mkLabel (question answer : String) (isCorrectAnswer isCorrectDocument : Bool)
    (origin : String) (id : Option String) (documentId : Option String)
    (offsetStartInDoc : Option Int) (noAnswer : Option Bool) (modelId : Option Int)
    (createdAt updatedAt : Option String) (freshUuid : String) : Label :=
  let theId :=
    match id with
    | some s => if s = "" then freshUuid else s
    | Option.none => freshUuid
  ⟨theId, createdAt, updatedAt, question, answer, isCorrectAnswer, isCorrectDocument,
   origin, documentId, offsetStartInDoc, noAnswer, modelId⟩

/-- `Label.__eq__`: value equality on every field except `id`. -/
def labelEq (self other : Label) : Bool :=
  (other.question == self.question) && (other.answer == self.answer) &&
  (other.isCorrectAnswer == self.isCorrectAnswer) &&
  (other.isCorrectDocument == self.isCorrectDocument) &&
  (other.origin == self.origin) && (other.documentId == self.documentId) &&
  (other.offsetStartInDoc == self.offsetStartInDoc) && (other.noAnswer == self.noAnswer) &&
  (other.modelId == self.modelId) && (other.createdAt == self.createdAt) &&
  (other.updatedAt == self.updatedAt)

/-- Python `str` of a bool. -/
def strOfB (b : Bool) : String := if b then "True" else "False"

/-- Python `str` of an optional string (`None` renders as `"None"`). -/
def strOfOptS : Option String → String
  | Option.none => "None"
  | some s => s

/-- Python `str` of an optional int. -/
def strOfOptI : Option Int → String
  | Option.none => "None"
  | some n => toString n

/-- Python `str` of an optional bool. -/
def strOfOptB : Option Bool → String
  | Option.none => "None"
  | some b => strOfB b

/-- The string `Label.__hash__` feeds to Python's string hash: the
concatenation of nine fields (`created_at`/`updated_at` are omitted). -/
def labelHashInput (l : Label) : String :=
  l.question ++ l.answer ++ strOfB l.isCorrectAnswer ++ strOfB l.isCorrectDocument ++
  l.origin ++ strOfOptS l.documentId ++ strOfOptI l.offsetStartInDoc ++
  strOfOptB l.noAnswer ++ strOfOptI l.modelId

/-- `Label.__hash__`, parameterized by the (process-fixed) string hash `h`. -/
def labelHash (h : String → Int) (l : Label) : Int := h (labelHashInput l)

/-- The `NIterator` state: the remaining underlying iterator `it`, the
`_has_next` cache (`None`/`True`/`False`) and the `_the_next` slot. -/
structure NIterator (α : Type) where
  it : List α
  hNext : Option Bool
  theNext : α

/-- `NIterator.__init__` over a finite sequence; `junk` stands for the initial
`None` in `_the_next`, which is never returned before being overwritten. -/
def NIterator.mkIter {α : Type} (junk : α) (l : List α) : NIterator α :=
  ⟨l, Option.none, junk⟩

/-- `NIterator.next`: consumes the cached element if `_has_next` is truthy,
otherwise pulls from the underlying iterator (raising `StopIteration`, modelled
as `Except.error`, when it is exhausted — in which case no state is changed,
since the raise happens before the cache reset). -/
def NIterator.next {α : Type} (s : NIterator α) : Except Unit (α × NIterator α) :=
  if s.hNext = some true then Except.ok (s.theNext, { s with hNext := Option.none })
  else
    match s.it with
    | [] => Except.error ()
    | x :: t => Except.ok (x, ⟨t, Option.none, s.theNext⟩)

/-- `NIterator.has_next`: when the cache is unset, pulls one element into the
cache (or records exhaustion); then reports the cache. -/
def NIterator.hasNext {α : Type} (s : NIterator α) : Bool × NIterator α :=
  match s.hNext with
  | Option.none =>
      match s.it with
      | [] => (false, { s with hNext := some false })
      | x :: t => (true, ⟨t, some true, x⟩)
  | some b => (b, s)

/-- The store-level error raised under the `fail` duplicate policy. -/
inductive StoreErr where
  | duplicateDocumentError (msg : String)
deriving DecidableEq

/-- Python `a or b` on optional strings (an empty string is falsy). -/
def pyOrOpt : Option String → Option String → Option String
  | some s, b => if s = "" then b else some s
  | Option.none, b => b

/-- How an optional index renders inside an f-string (`None` → `"None"`). -/
def strOfIndex : Option String → String
  | some s => s
  | Option.none => "None"

/-- Modelled from the spec: `BaseDocStore._drop_duplicate_documents` is called
by `_handle_duplicate_documents` but its body is not among the sources; per
§4.3 step 1 it deduplicates the batch by id, keeping the first occurrence
encountered (stable, input-order preserving). This is its worker, carrying the
ids seen so far. -/
def dropDupsGo : List String → List Document → List Document
  | _, [] => []
  | seen, d :: t =>
      if seen.contains d.id then dropDupsGo seen t
      else d :: dropDupsGo (d.id :: seen) t

/-- Modelled from the spec: `BaseDocStore._drop_duplicate_documents` (see
`dropDupsGo`). -/
def dropDuplicateDocuments (documents : List Document) : List Document :=
  dropDupsGo [] documents

/-- The message of the `DuplicateDocumentError` raised by
`_handle_duplicate_documents` (the source f-string has no closing quote after
the id list). -/
def dupMsg (idsExistInDb : List String) (index : Option String) : String :=
  "Document with ids \x27" ++ String.intercalate ", " idsExistInDb ++
    " already exists in index = \x27" ++ strOfIndex index ++ "\x27."

/-- `BaseDocStore._handle_duplicate_documents`, parameterized by the abstract
`get_documents_by_id` lookup and the store's default index: under `skip`/`fail`
it deduplicates the batch, looks up the surviving ids, raises
`DuplicateDocumentError` under `fail` when any id was found, and otherwise
filters out the found ids; any other policy returns the batch unchanged. -/
def handleDuplicateDocuments
    (getDocumentsById : List String → Option String → List Document)
    (selfIndex : Option String) (documents : List Document) (index : Option String)
    (duplicateDocuments : Option String) : Except StoreErr (List Document) :=
  let index := pyOrOpt index selfIndex
  if duplicateDocuments = some "skip" ∨ duplicateDocuments = some "fail" then
    let documents := dropDuplicateDocuments documents
    let documentsFound := getDocumentsById (documents.map (fun d => d.id)) index
    let idsExistInDb := documentsFound.map (fun d => d.id)
    if idsExistInDb.length > 0 ∧ duplicateDocuments = some "fail" then
      Except.error (StoreErr.duplicateDocumentError (dupMsg idsExistInDb index))
    else
      Except.ok (documents.filter (fun doc => !(idsExistInDb.contains doc.id)))
  else
    Except.ok documents

/-- An interaction step with an `NIterator`: a `has_next` call (`peek`) or a
`next` call (`pull`). -/
inductive ItOp where
  | peek
  | pull
deriving DecidableEq

/-- The number of `next` calls in a schedule of interaction steps. -/
def countPull : List ItOp → Nat
  | [] => 0
  | ItOp.pull :: t => countPull t + 1
  | ItOp.peek :: t => countPull t

/-- Run a schedule of `has_next`/`next` calls against an iterator, collecting
the elements the successful `next` calls return (a raising `next` leaves the
state unchanged and returns nothing). -/
def runOps {α : Type} : NIterator α → List ItOp → List α
  | _, [] => []
  | s, ItOp.peek :: ops => runOps s.hasNext.2 ops
  | s, ItOp.pull :: ops =>
      match s.next with
      | Except.ok r => r.1 :: runOps r.2 ops
      | Except.error _ => runOps s ops

/-- The iterator state after running a schedule of calls. -/
def runState {α : Type} : NIterator α → List ItOp → NIterator α
  | s, [] => s
  | s, ItOp.peek :: ops => runState s.hasNext.2 ops
  | s, ItOp.pull :: ops =>
      match s.next with
      | Except.ok r => runState r.2 ops
      | Except.error _ => runState s ops

/-- The logical remainder of the wrapped sequence: the cached element, if one
is pending, followed by the not-yet-pulled part of the underlying iterator. -/
def absRem {α : Type} (s : NIterator α) : List α :=
  (match s.hNext with
   | some true => [s.theNext]
   | _ => []) ++ s.it

/-- States reachable from `mkIter` record exhaustion only truthfully. -/
def NInv {α : Type} (s : NIterator α) : Prop := s.hNext = some false → s.it = []

/-- A heap value of the mutation model for `Document.from_dict`: an immutable
primitive or a reference to a dict object. -/
inductive HV where
  | prim (v : PyVal)
  | ref (a : Nat)

/-- The mutable object heap: cell `a` holds the entries of the dict object at
address `a`. -/
structure Heap where
  cells : List (List (String × HV))

/-- Read the dict object at address `a` (absent addresses read as empty). -/
def Heap.read (h : Heap) (a : Nat) : List (String × HV) := h.cells.getD a []

/-- Overwrite the dict object at address `a`. -/
def Heap.write (h : Heap) (a : Nat) (c : List (String × HV)) : Heap := ⟨h.cells.set a c⟩

/-- Allocate a fresh dict object, returning its address. -/
def Heap.alloc (h : Heap) (c : List (String × HV)) : Heap × Nat :=
  (⟨h.cells ++ [c]⟩, h.cells.length)

mutual

/-- `copy.deepcopy` on a heap value: primitives are shared, a reference is
replaced by a reference to a recursively copied fresh object. The fuel bounds
the copied depth; callers pass more fuel than the depth of any input. -/
def deepcopyHV : Nat → Heap → HV → Heap × HV
  | _, h, HV.prim v => (h, HV.prim v)
  | 0, h, HV.ref a => (h, HV.ref a)
  | f + 1, h, HV.ref a =>
      let r := deepcopyEntries f h (h.read a)
      let al := r.1.alloc r.2
      (al.1, HV.ref al.2)
termination_by f _ v => (f, sizeOf v)

/-- `copy.deepcopy` of dict entries, threading the heap left to right. -/
def deepcopyEntries : Nat → Heap → List (String × HV) → Heap × List (String × HV)
  | _, h, [] => (h, [])
  | f, h, (k, v) :: t =>
      let r := deepcopyHV f h v
      let r2 := deepcopyEntries f r.1 t
      (r2.1, (k, r.2) :: r2.2)
termination_by f _ l => (f, sizeOf l)

end

mutual

/-- Freeze a heap value into the pure `PyVal` it denotes. -/
def materializeHV : Nat → Heap → HV → PyVal
  | _, _, HV.prim v => v
  | 0, _, HV.ref _ => PyVal.vnone
  | f + 1, h, HV.ref a => PyVal.dict (materializeEntries f h (h.read a))
termination_by f _ v => (f, sizeOf v)

/-- Freeze dict entries into pure values. -/
def materializeEntries : Nat → Heap → List (String × HV) → List (String × PyVal)
  | _, _, [] => []
  | f, h, (k, v) :: t => (k, materializeHV f h v) :: materializeEntries f h t
termination_by f _ l => (f, sizeOf l)

end

/-- `Document.from_dict` against the object heap, with the caller's argument
dict living at address `a0`: the explicit-state rendering of the same source
lines as `fromDict` (deep copy first, then ensure and fill `meta` by mutating
the copy, rebuild the keyword dict, call the constructor). Returns the
constructor's result together with the post-call heap. -/
def fromDictH (h : Heap) (a0 : Nat) (fieldMap : List (String × String))
    (uuidType : PyVal) : Except String Document × Heap :=
  let fuel := h.cells.length + 1
  let r := deepcopyHV fuel h (HV.ref a0)
  let h1 := r.1
  match r.2 with
  | HV.prim _ => (Except.error "unreachable: deepcopy of a dict yields a dict", h1)
  | HV.ref c0 =>
    let hEnsured :=
      if (dget (h1.read c0) "meta").isSome then h1
      else
        let al := h1.alloc []
        al.1.write c0 (dput (al.1.read c0) "meta" (HV.ref al.2))
    let h2 := hEnsured
    let cell := h2.read c0
    let unknowns := cell.filter (fun kv =>
      !(initArgs.contains kv.1) && (dget fieldMap kv.1).isNone)
    let folded : Option Heap :=
      if unknowns.isEmpty then some h2
      else
        match dget cell "meta" with
        | some (HV.ref am) =>
            some (h2.write am (unknowns.foldl (fun acc kv => dput acc kv.1 kv.2) (h2.read am)))
        | _ => Option.none
    match folded with
    | Option.none => (Except.error "TypeError: object does not support item assignment", h2)
    | some h3 =>
        let cell3 := h3.read c0
        let newDoc := cell3.foldl (fun acc kv =>
          if initArgs.contains kv.1 then dput acc kv.1 kv.2
          else
            match dget fieldMap kv.1 with
            | some k2 => dput acc k2 kv.2
            | Option.none => acc) []
        let newDoc :=
          if pyTruthy uuidType then dput newDoc "uuid_type" (HV.prim uuidType) else newDoc
        if newDoc.all (fun kv =>
            initArgs.contains kv.1 || kv.1 == "uuid_type" || kv.1 == "id_hash_keys") then
          match dget newDoc "text" with
          | Option.none => (Except.error "TypeError: missing required argument text", h3)
          | some t =>
              let fuel3 := h3.cells.length + 1
              let arg := fun key =>
                materializeHV fuel3 h3 ((dget newDoc key).getD (HV.prim PyVal.vnone))
              (mkDocument (materializeHV fuel3 h3 t) (arg "id") (arg "score")
                (arg "probability") (arg "question") (arg "meta") (arg "embedding")
                (arg "id_hash_keys") (arg "uuid_type"), h3)
        else (Except.error "TypeError: unexpected keyword argument", h3)

/-- A concrete document used to exercise the store operations. -/
def docA : Document :=
  ⟨PyVal.str "t", PyVal.vnone, PyVal.vnone, PyVal.vnone, PyVal.dict [], PyVal.vnone, "a"⟩

/-- A concrete document with a non-empty `meta` dict and an explicit id. -/
def demoDoc : Document :=
  ⟨PyVal.str "hello", PyVal.vnone, PyVal.vnone, PyVal.vnone,
   PyVal.dict [("a", PyVal.int 1)], PyVal.vnone, "xid"⟩

/-- The keys of an association list are pairwise distinct (a real Python dict). -/
def keysNodup {α : Type} (l : List (String × α)) : Prop := (l.map Prod.fst).Nodup

-- Sanity vectors pinning the hash implementations to their published reference values.

theorem mmh3_vector_foo : mmh3hash128 "foo" = 168394135621993849475852668931176482145 := by
  decide

theorem mmh3_vector_empty : mmh3hash128 "" = 0 := by decide

theorem mmh3_vector_long :
    mmh3hash128 "The quick brown fox jumps over the lazy dog" =
      162514929770263185971448983895935490924 := by decide

theorem mmh3_vector_hello_hex :
    pyFmt02x (mmh3hash128 "hello") = "5b1e906a48ae1d19cbd8a7b341bd9b02" := by decide

theorem md5_vector_abc : bytesHex (md5Bytes (strBytes "abc")) =
    "900150983cd24fb0d6963f7d28e17f72" := by decide

theorem md5_vector_empty : bytesHex (md5Bytes (strBytes "")) =
    "d41d8cd98f00b204e9800998ecf8427e" := by decide

theorem sha1_vector_abc : bytesHex (sha1Bytes (strBytes "abc")) =
    "a9993e364706816aba3e25717850c26c9cd0d89d" := by decide

theorem sha1_vector_empty : bytesHex (sha1Bytes (strBytes "")) =
    "da39a3ee5e6b4b0d3255bfef95601890afd80709" := by decide

theorem uuid3_vector_python_org :
    uuid3 nsDNSBytes "python.org" = "6fa459ea-ee8a-3ca4-894e-db77e160355e" := by decide

theorem uuid5_vector_python_org :
    uuid5 nsDNSBytes "python.org" = "886313e1-3b8a-5372-9b90-0c9aee199e5d" := by decide

/-- C1: for every text `T` and every fixed hashing scheme (default mmh3, or the
uuid3/uuid5 namespace schemes), constructing a `Document` from `T` with no
explicit id always yields the same id: a single string determined by the text
and the scheme alone, independent of every other constructor argument (and so
identical across repeated constructions and process restarts — the embedding
has no run-specific input). -/
theorem claim_C1_deterministic_id (t : String) (ut : PyVal)
    (hut : ut = PyVal.vnone ∨ ut = PyVal.str "uuid3" ∨ ut = PyVal.str "uuid5") :
    ∃ i : String, ∀ sc pr qu me em ihk : PyVal,
      ∃ d : Document,
        mkDocument (PyVal.str t) PyVal.vnone sc pr qu me em ihk ut = Except.ok d ∧
        d.id = i := by
  rcases hut with h | h | h <;> subst h
  · exact ⟨pyFmt02x (mmh3hash128 t), fun sc pr qu me em ihk => ⟨_, rfl, rfl⟩⟩
  · exact ⟨uuid3 nsDNSBytes t, fun sc pr qu me em ihk => ⟨_, rfl, rfl⟩⟩
  · exact ⟨uuid5 nsDNSBytes t, fun sc pr qu me em ihk => ⟨_, rfl, rfl⟩⟩

theorem claim_C1_deterministic_id_witness :
    ∃ i : String, ∀ sc pr qu me em ihk : PyVal,
      ∃ d : Document,
        mkDocument (PyVal.str "foo") PyVal.vnone sc pr qu me em ihk PyVal.vnone =
          Except.ok d ∧ d.id = i :=
  claim_C1_deterministic_id "foo" PyVal.vnone (Or.inl rfl)

theorem hexLoop_length_ge : ∀ (f n : Nat) (acc : List Char),
    acc.length ≤ (hexLoop f n acc).length := by
  intro f
  induction f with
  | zero => intro n acc; simp [hexLoop]
  | succ f ih =>
      intro n acc
      by_cases h0 : n = 0
      · simp [hexLoop, h0]
      · simpa [hexLoop, h0] using
          Nat.le_trans (by simp) (ih (n / 16) (hexDigitChar (n % 16) :: acc))

theorem hexLoop_length_le (k : Nat) : ∀ (f n : Nat) (acc : List Char),
    n < 16 ^ k → k ≤ f → (hexLoop f n acc).length ≤ k + acc.length := by
  induction k with
  | zero =>
      intro f n acc hn _
      have h0 : n = 0 := by simpa using hn
      cases f <;> simp [hexLoop, h0]
  | succ k ih =>
      intro f n acc hn hk
      obtain ⟨f2, rfl⟩ : ∃ f2, f = f2 + 1 := ⟨f - 1, by omega⟩
      by_cases h0 : n = 0
      · simp [hexLoop, h0]
      · have hdiv : n / 16 < 16 ^ k := by
          have h16 : (0 : Nat) < 16 := by norm_num
          refine (Nat.div_lt_iff_lt_mul h16).mpr ?_
          calc n < 16 ^ (k + 1) := hn
          _ = 16 ^ k * 16 := by ring
        have := ih f2 (n / 16) (hexDigitChar (n % 16) :: acc) hdiv (by omega)
        simp only [hexLoop, h0, if_neg (by omega : ¬ n = 0)]
        simp at this ⊢
        omega

theorem hexStr_length_pos (n : Nat) : 1 ≤ (hexStr n).length := by
  by_cases h0 : n = 0
  · subst h0; decide
  · unfold hexStr
    rw [if_neg h0]
    have hstep : hexLoop 200 n [] = hexLoop 199 (n / 16) [hexDigitChar (n % 16)] := by
      simp [hexLoop, h0]
    show 1 ≤ (String.mk (hexLoop 200 n [])).length
    rw [hstep]
    exact hexLoop_length_ge 199 (n / 16) [hexDigitChar (n % 16)]

theorem hexStr_length_le32 (n : Nat) (h : n < 2 ^ 128) : (hexStr n).length ≤ 32 := by
  by_cases h0 : n = 0
  · subst h0; decide
  · unfold hexStr
    rw [if_neg h0]
    have h16 : n < 16 ^ 32 := by
      calc n < 2 ^ 128 := h
      _ = 16 ^ 32 := by norm_num
    exact hexLoop_length_le 32 200 n [] h16 (by norm_num)

theorem pyFmt02x_length (n : Nat) (h : n < 2 ^ 128) :
    2 ≤ (pyFmt02x n).length ∧ (pyFmt02x n).length ≤ 32 := by
  have hp := hexStr_length_pos n
  have hl := hexStr_length_le32 n h
  have h01 : ("0" : String).length = 1 := rfl
  simp only [pyFmt02x]
  by_cases hc : (hexStr n).length < 2
  · rw [if_pos hc, String.length_append, h01]
    omega
  · rw [if_neg hc]
    omega

theorem lt_of_mod_comb (a b : Nat) : a % M64 + (b % M64) * M64 < 2 ^ 128 := by
  have hM : 0 < M64 := by norm_num [M64]
  have h1 := Nat.mod_lt a hM
  have h2 := Nat.mod_lt b hM
  have hMM : M64 * M64 = 2 ^ 128 := by norm_num [M64]
  nlinarith

theorem mmh3hash128bytes_lt (bs : List Nat) : mmh3hash128bytes bs < 2 ^ 128 := by
  simp only [mmh3hash128bytes]
  exact lt_of_mod_comb _ _

/-- C7 (amended): under the default scheme the derived id is the 128-bit
(< 2^128) mmh3 hash of the text rendered as minimal-width lower-case hex,
zero-padded on the left to a minimum of two digits, so its length ranges over
2..32 depending on the text, rather than being the same for every input. -/
theorem claim_C7_amended_id_format (t : String) :
    getId (PyVal.str t) PyVal.vnone PyVal.vnone =
      Except.ok (pyFmt02x (mmh3hash128 t)) ∧
    mmh3hash128 t < 2 ^ 128 ∧
    2 ≤ (pyFmt02x (mmh3hash128 t)).length ∧
    (pyFmt02x (mmh3hash128 t)).length ≤ 32 := by
  have hlt : mmh3hash128 t < 2 ^ 128 := mmh3hash128bytes_lt (strBytes t)
  have := pyFmt02x_length (mmh3hash128 t) hlt
  exact ⟨rfl, hlt, this.1, this.2⟩

/-- C7 counterexample: the id is not a fixed-width rendering — the hash of the
empty text is 0, formatted as `"00"` (length 2), while the id of `"foo"` has
the full 32 hex digits; so two texts get ids of different lengths. -/
theorem claim_C7_counterexample :
    (mkDocument (PyVal.str "") PyVal.vnone PyVal.vnone PyVal.vnone PyVal.vnone
        PyVal.vnone PyVal.vnone PyVal.vnone PyVal.vnone).map (fun d => d.id.length) =
      Except.ok 2 ∧
    (mkDocument (PyVal.str "foo") PyVal.vnone PyVal.vnone PyVal.vnone PyVal.vnone
        PyVal.vnone PyVal.vnone PyVal.vnone PyVal.vnone).map (fun d => d.id.length) =
      Except.ok 32 := by
  exact ⟨rfl, rfl⟩

/-- C8: two Labels built with identical values for every field except `id`
(and whatever fresh tokens) are `__eq__`-equal and have equal hashes; and in
general `__eq__`-equality implies equal hashes for any fixed string hash `h`
(Python's per-process string hash is deterministic within a process). -/
theorem claim_C8_label_eq_hash :
    (∀ (h : String → Int) (q a : String) (ica icd : Bool) (org : String)
        (id1 id2 : Option String) (did : Option String) (os : Option Int)
        (na : Option Bool) (mid : Option Int) (ca ua : Option String) (f1 f2 : String),
      labelEq (mkLabel q a ica icd org id1 did os na mid ca ua f1)
          (mkLabel q a ica icd org id2 did os na mid ca ua f2) = true ∧
      labelHash h (mkLabel q a ica icd org id1 did os na mid ca ua f1) =
        labelHash h (mkLabel q a ica icd org id2 did os na mid ca ua f2)) ∧
    (∀ (h : String → Int) (l1 l2 : Label),
      labelEq l1 l2 = true → labelHash h l1 = labelHash h l2) := by
  constructor
  · intro h q a ica icd org id1 id2 did os na mid ca ua f1 f2
    exact ⟨by simp [labelEq, mkLabel], rfl⟩
  · intro h l1 l2 he
    simp only [labelEq, Bool.and_eq_true, beq_iff_eq] at he
    obtain ⟨⟨⟨⟨⟨⟨⟨⟨⟨⟨hq, ha⟩, hica⟩, hicd⟩, horg⟩, hdid⟩, hos⟩, hna⟩, hmid⟩, hca⟩, hua⟩ := he
    unfold labelHash labelHashInput
    rw [hq, ha, hica, hicd, horg, hdid, hos, hna, hmid]

theorem claim_C8_label_eq_hash_witness :
    labelHash (fun s => Int.ofNat s.length)
        ⟨"id1", Option.none, Option.none, "q", "a", true, false, "o",
         Option.none, Option.none, Option.none, Option.none⟩ =
      labelHash (fun s => Int.ofNat s.length)
        ⟨"id2", Option.none, Option.none, "q", "a", true, false, "o",
         Option.none, Option.none, Option.none, Option.none⟩ :=
  claim_C8_label_eq_hash.2 (fun s => Int.ofNat s.length) _ _ (by decide)

/-- C9: a supplied Label id equal to the empty string is falsy, so it is not
preserved — the freshly generated token is used instead (just as when no id is
supplied); any non-empty supplied id is kept verbatim. -/
theorem claim_C9_label_empty_id (q a : String) (ica icd : Bool) (org : String)
    (did : Option String) (os : Option Int) (na : Option Bool) (mid : Option Int)
    (ca ua : Option String) (fresh : String) :
    (mkLabel q a ica icd org (some "") did os na mid ca ua fresh).id = fresh ∧
    (mkLabel q a ica icd org Option.none did os na mid ca ua fresh).id = fresh ∧
    (∀ s : String, s ≠ "" →
      (mkLabel q a ica icd org (some s) did os na mid ca ua fresh).id = s) := by
  refine ⟨rfl, rfl, fun s hs => ?_⟩
  simp [mkLabel, hs]

theorem claim_C9_label_empty_id_witness :
    (mkLabel "q" "a" true true "o" (some "") Option.none Option.none Option.none
        Option.none Option.none Option.none "fresh-token").id = "fresh-token" ∧
    (mkLabel "q" "a" true true "o" (some "custom-1") Option.none Option.none Option.none
        Option.none Option.none Option.none "fresh-token").id = "custom-1" :=
  ⟨(claim_C9_label_empty_id "q" "a" true true "o" Option.none Option.none Option.none
      Option.none Option.none Option.none "fresh-token").1,
   (claim_C9_label_empty_id "q" "a" true true "o" Option.none Option.none Option.none
      Option.none Option.none Option.none "fresh-token").2.2 "custom-1" (by decide)⟩

theorem dropDupsGo_sublist : ∀ (seen : List String) (l : List Document),
    (dropDupsGo seen l).Sublist l := by
  intro seen l
  induction l generalizing seen with
  | nil => simp [dropDupsGo]
  | cons d t ih =>
      simp only [dropDupsGo]
      by_cases h : seen.contains d.id
      · rw [if_pos h]; exact (ih seen).cons d
      · rw [if_neg h]; exact (ih (d.id :: seen)).cons₂ d

theorem dropDupsGo_not_seen : ∀ (seen : List String) (l : List Document),
    ∀ d ∈ dropDupsGo seen l, seen.contains d.id = false := by
  intro seen l
  induction l generalizing seen with
  | nil => simp [dropDupsGo]
  | cons e t ih =>
      simp only [dropDupsGo]
      by_cases h : seen.contains e.id
      · rw [if_pos h]; exact ih seen
      · rw [if_neg h]
        intro d hd
        rcases List.mem_cons.mp hd with rfl | hd2
        · simpa using h
        · have := ih (e.id :: seen) d hd2
          simp only [List.contains_cons, Bool.or_eq_false_iff] at this
          exact this.2

theorem dropDupsGo_ids_nodup : ∀ (seen : List String) (l : List Document),
    ((dropDupsGo seen l).map (fun d => d.id)).Nodup := by
  intro seen l
  induction l generalizing seen with
  | nil => simp [dropDupsGo]
  | cons e t ih =>
      simp only [dropDupsGo]
      by_cases h : seen.contains e.id
      · rw [if_pos h]; exact ih seen
      · rw [if_neg h]
        simp only [List.map_cons, List.nodup_cons]
        refine ⟨fun hmem => ?_, ih (e.id :: seen)⟩
        obtain ⟨d, hd, hid⟩ := List.mem_map.mp hmem
        have := dropDupsGo_not_seen (e.id :: seen) t d hd
        rw [hid] at this
        simp at this

theorem dropDupsGo_find? : ∀ (seen : List String) (l : List Document) (x : String),
    seen.contains x = false →
    (dropDupsGo seen l).find? (fun d => d.id == x) = l.find? (fun d => d.id == x) := by
  intro seen l
  induction l generalizing seen with
  | nil => intro x _; simp [dropDupsGo]
  | cons e t ih =>
      intro x hx
      simp only [dropDupsGo]
      by_cases h : seen.contains e.id
      · rw [if_pos h]
        have hne : ¬ ((fun d => d.id == x) e = true) := by
          simp only [beq_iff_eq]
          intro he
          rw [he] at h
          rw [h] at hx
          exact Bool.noConfusion hx
        rw [@List.find?_cons_of_neg Document (fun d => d.id == x) e t hne]
        exact ih seen x hx
      · rw [if_neg h]
        by_cases hex : ((fun d => d.id == x) e = true)
        · rw [@List.find?_cons_of_pos Document (fun d => d.id == x) e
              (dropDupsGo (e.id :: seen) t) hex,
            @List.find?_cons_of_pos Document (fun d => d.id == x) e t hex]
        · rw [@List.find?_cons_of_neg Document (fun d => d.id == x) e
              (dropDupsGo (e.id :: seen) t) hex,
            @List.find?_cons_of_neg Document (fun d => d.id == x) e t hex]
          apply ih (e.id :: seen) x
          simp only [List.contains_cons, Bool.or_eq_false_iff]
          refine ⟨?_, hx⟩
          simp only [beq_iff_eq] at hex ⊢
          simpa using fun he => hex he.symm

theorem dropDupsGo_idem : ∀ (seen : List String) (l : List Document),
    dropDupsGo seen (dropDupsGo seen l) = dropDupsGo seen l := by
  intro seen l
  induction l generalizing seen with
  | nil => simp [dropDupsGo]
  | cons e t ih =>
      simp only [dropDupsGo]
      by_cases h : seen.contains e.id
      · rw [if_pos h]; exact ih seen
      · rw [if_neg h]
        simp only [dropDupsGo, if_neg h]
        rw [ih (e.id :: seen)]

/-- C3: under the `fail` policy, if the store's `get_documents_by_id` lookup
reports any of the (deduplicated) incoming ids as existing in the resolved
index, the whole call aborts with a `DuplicateDocumentError` whose message
names every reported id and the index, and no document list is returned for
writing; if the lookup reports none, no error is raised. -/
theorem claim_C3_fail_aborts_naming_ids
    (gById : List String → Option String → List Document)
    (selfIndex index : Option String) (documents : List Document) :
    (gById ((dropDuplicateDocuments documents).map (fun d => d.id))
        (pyOrOpt index selfIndex) ≠ [] →
      handleDuplicateDocuments gById selfIndex documents index (some "fail") =
        Except.error (StoreErr.duplicateDocumentError
          (dupMsg ((gById ((dropDuplicateDocuments documents).map (fun d => d.id))
              (pyOrOpt index selfIndex)).map (fun d => d.id))
            (pyOrOpt index selfIndex)))) ∧
    (gById ((dropDuplicateDocuments documents).map (fun d => d.id))
        (pyOrOpt index selfIndex) = [] →
      handleDuplicateDocuments gById selfIndex documents index (some "fail") =
        Except.ok (dropDuplicateDocuments documents)) := by
  constructor
  · intro hne
    simp only [handleDuplicateDocuments]
    rw [if_pos (Or.inr trivial)]
    rw [if_pos ⟨by simpa [List.length_pos] using hne, trivial⟩]
  · intro heq
    simp only [handleDuplicateDocuments]
    rw [if_pos (Or.inr trivial)]
    rw [heq]
    rw [if_neg (by simp)]
    simp

theorem claim_C3_fail_aborts_naming_ids_witness :
    handleDuplicateDocuments (fun _ _ => [docA]) Option.none [docA] (some "document")
        (some "fail") =
      Except.error (StoreErr.duplicateDocumentError
        "Document with ids \x27a already exists in index = \x27document\x27.") :=
  (claim_C3_fail_aborts_naming_ids (fun _ _ => [docA]) Option.none (some "document")
    [docA]).1 (by simp)

/-- C4: under the `skip` policy duplicate handling never raises: it returns the
(first-occurrence deduplicated) batch filtered down to the documents whose id
is not among the ids `get_documents_by_id` reports for the resolved index; in
particular two same-id documents submitted against a store that reports no
hit for that id result in exactly one surviving document. -/
theorem claim_C4_skip_filters_silently
    (gById : List String → Option String → List Document)
    (selfIndex index : Option String) (documents : List Document) :
    (handleDuplicateDocuments gById selfIndex documents index (some "skip") =
      Except.ok ((dropDuplicateDocuments documents).filter (fun d =>
        !(((gById ((dropDuplicateDocuments documents).map (fun d2 => d2.id))
            (pyOrOpt index selfIndex)).map (fun d2 => d2.id)).contains d.id)))) ∧
    (∀ d1 d2 : Document, d1.id = d2.id →
      gById [d1.id] (pyOrOpt index selfIndex) = [] →
      handleDuplicateDocuments gById selfIndex [d1, d2] index (some "skip") =
        Except.ok [d1]) := by
  constructor
  · simp only [handleDuplicateDocuments]
    rw [if_pos (Or.inl trivial)]
    rw [if_neg (by simp)]
  · intro d1 d2 hid hg
    have hdd : dropDuplicateDocuments [d1, d2] = [d1] := by
      simp [dropDuplicateDocuments, dropDupsGo, hid]
    simp only [handleDuplicateDocuments]
    rw [if_pos (Or.inl trivial)]
    rw [hdd]
    simp only [List.map_cons, List.map_nil, hg]
    rw [if_neg (by simp)]
    simp

theorem claim_C4_skip_filters_silently_witness :
    handleDuplicateDocuments (fun _ _ => []) Option.none [docA, docA] Option.none
        (some "skip") = Except.ok [docA] :=
  (claim_C4_skip_filters_silently (fun _ _ => []) Option.none Option.none
    [docA, docA]).2 docA docA rfl rfl

/-- C5: under `skip`/`fail` the incoming batch is first deduplicated by id,
keeping the first occurrence of each id in input order — processing a batch is
the same as processing its keep-first deduplication, which is a stable sublist
of the input with pairwise-distinct ids agreeing with the input on the first
document found for every id; under `overwrite` the batch is passed through
unchanged with no within-batch deduplication. -/
theorem claim_C5_dedup_first_occurrence
    (gById : List String → Option String → List Document)
    (selfIndex index : Option String) (documents : List Document) :
    (handleDuplicateDocuments gById selfIndex documents index (some "overwrite") =
      Except.ok documents) ∧
    (∀ p : Option String, p = some "skip" ∨ p = some "fail" →
      handleDuplicateDocuments gById selfIndex documents index p =
        handleDuplicateDocuments gById selfIndex (dropDuplicateDocuments documents)
          index p) ∧
    (dropDuplicateDocuments documents).Sublist documents ∧
    ((dropDuplicateDocuments documents).map (fun d => d.id)).Nodup ∧
    (∀ x : String, (dropDuplicateDocuments documents).find? (fun d => d.id == x) =
      documents.find? (fun d => d.id == x)) := by
  refine ⟨?_, ?_, dropDupsGo_sublist [] documents, dropDupsGo_ids_nodup [] documents,
    fun x => dropDupsGo_find? [] documents x rfl⟩
  · simp only [handleDuplicateDocuments]
    rw [if_neg (by simp)]
  · intro p hp
    have hid : dropDuplicateDocuments (dropDuplicateDocuments documents) =
        dropDuplicateDocuments documents := dropDupsGo_idem [] documents
    rcases hp with rfl | rfl
    · simp only [handleDuplicateDocuments, dropDuplicateDocuments] at hid ⊢
      rw [hid, if_pos (Or.inl trivial), if_pos (Or.inl trivial)]
    · simp only [handleDuplicateDocuments, dropDuplicateDocuments] at hid ⊢
      rw [hid, if_pos (Or.inr trivial), if_pos (Or.inr trivial)]

theorem claim_C5_dedup_first_occurrence_witness :
    handleDuplicateDocuments (fun _ _ => []) Option.none [docA, docA] Option.none
        (some "skip") =
      handleDuplicateDocuments (fun _ _ => []) Option.none
        (dropDuplicateDocuments [docA, docA]) Option.none (some "skip") :=
  (claim_C5_dedup_first_occurrence (fun _ _ => []) Option.none Option.none
    [docA, docA]).2.1 (some "skip") (Or.inl rfl)

theorem hasNext_spec {α : Type} (s : NIterator α) (hinv : NInv s) :
    s.hasNext.1 = !(absRem s).isEmpty ∧ absRem s.hasNext.2 = absRem s ∧
      NInv s.hasNext.2 := by
  cases hn : s.hNext with
  | none =>
      cases hit : s.it with
      | nil =>
          refine ⟨?_, ?_, ?_⟩
          · simp [NIterator.hasNext, absRem, hn, hit]
          · simp [NIterator.hasNext, absRem, hn, hit]
          · intro h
            simp [NIterator.hasNext, hn, hit]
      | cons x t =>
          refine ⟨?_, ?_, ?_⟩
          · simp [NIterator.hasNext, absRem, hn, hit]
          · simp [NIterator.hasNext, absRem, hn, hit]
          · intro h
            simp [NIterator.hasNext, hn, hit] at h
  | some b =>
      cases b with
      | false =>
          have hit := hinv hn
          refine ⟨?_, ?_, ?_⟩
          · simp [NIterator.hasNext, absRem, hn, hit]
          · simp [NIterator.hasNext, hn]
          · intro h
            simp [NIterator.hasNext, hn] at h ⊢
            exact hit
      | true =>
          refine ⟨?_, ?_, ?_⟩
          · simp [NIterator.hasNext, absRem, hn]
          · simp [NIterator.hasNext, hn]
          · intro h
            simp [NIterator.hasNext, hn] at h ⊢

theorem next_spec {α : Type} (s : NIterator α) (hinv : NInv s) :
    (absRem s = [] → s.next = Except.error ()) ∧
    (∀ x rest, absRem s = x :: rest →
      ∃ s2, s.next = Except.ok (x, s2) ∧ absRem s2 = rest ∧ NInv s2) := by
  cases hn : s.hNext with
  | none =>
      cases hit : s.it with
      | nil =>
          refine ⟨fun _ => ?_, fun x rest hx => ?_⟩
          · simp [NIterator.next, hn, hit]
          · simp [absRem, hn, hit] at hx
      | cons y t =>
          refine ⟨fun hx => ?_, fun x rest hx => ?_⟩
          · simp [absRem, hn, hit] at hx
          · simp [absRem, hn, hit] at hx
            refine ⟨⟨t, Option.none, s.theNext⟩, ?_, ?_, fun h => Option.noConfusion h⟩
            · simp [NIterator.next, hn, hit, hx.1]
            · simp [absRem, hx.2]
  | some b =>
      cases b with
      | false =>
          have hit := hinv hn
          refine ⟨fun _ => ?_, fun x rest hx => ?_⟩
          · simp [NIterator.next, hn, hit]
          · simp [absRem, hn, hit] at hx
      | true =>
          refine ⟨fun hx => ?_, fun x rest hx => ?_⟩
          · simp [absRem, hn] at hx
          · simp [absRem, hn] at hx
            refine ⟨{ s with hNext := Option.none }, ?_, ?_, fun h => Option.noConfusion h⟩
            · simp [NIterator.next, hn, hx.1]
            · simp [absRem, hx.2]

theorem runOps_spec {α : Type} : ∀ (ops : List ItOp) (s : NIterator α), NInv s →
    runOps s ops = (absRem s).take (countPull ops) ∧
    absRem (runState s ops) = (absRem s).drop (countPull ops) ∧
    NInv (runState s ops) := by
  intro ops
  induction ops with
  | nil => intro s hinv; exact ⟨rfl, rfl, hinv⟩
  | cons op t ih =>
      intro s hinv
      cases op with
      | peek =>
          have hh := hasNext_spec s hinv
          have hrec := ih s.hasNext.2 hh.2.2
          refine ⟨?_, ?_, ?_⟩
          · show runOps s.hasNext.2 t = _
            rw [hrec.1, hh.2.1]
            rfl
          · show absRem (runState s.hasNext.2 t) = _
            rw [hrec.2.1, hh.2.1]
            rfl
          · exact hrec.2.2
      | pull =>
          cases har : absRem s with
          | nil =>
              have he := (next_spec s hinv).1 har
              have hrec := ih s hinv
              refine ⟨?_, ?_, ?_⟩
              · show runOps s (ItOp.pull :: t) = _
                simp only [runOps, he, har, countPull]
                rw [hrec.1, har]
                simp
              · show absRem (runState s (ItOp.pull :: t)) = _
                simp only [runState, he, har, countPull]
                rw [hrec.2.1, har]
                simp
              · show NInv (runState s (ItOp.pull :: t))
                simp only [runState, he]
                exact hrec.2.2
          | cons x rest =>
              obtain ⟨s2, hok, habs, hinv2⟩ := (next_spec s hinv).2 x rest har
              have hrec := ih s2 hinv2
              refine ⟨?_, ?_, ?_⟩
              · simp only [runOps, hok, har, countPull]
                rw [hrec.1, habs]
                simp
              · simp only [runState, hok, har, countPull]
                rw [hrec.2.1, habs]
                simp
              · simp only [runState, hok]
                exact hrec.2.2

/-- C6: the lookahead iterator is faithful to the wrapped finite sequence:
`has_next` is idempotent and non-destructive (a second call returns the same
answer and the identical state); a schedule with any number of `has_next`
calls interleaved between `next` calls returns exactly the elements of `S`
in order (one per `next`, never resurrecting past the end); and once the
sequence is exhausted, `has_next` answers false and `next` raises on every
subsequent call. -/
theorem claim_C6_lookahead_iterator :
    (∀ (α : Type) (s : NIterator α),
      s.hasNext.2.hasNext = (s.hasNext.1, s.hasNext.2)) ∧
    (∀ (α : Type) (junk : α) (S : List α) (ops : List ItOp),
      runOps (NIterator.mkIter junk S) ops = S.take (countPull ops)) ∧
    (∀ (α : Type) (junk : α) (S : List α) (ops : List ItOp),
      S.length ≤ countPull ops →
      (runState (NIterator.mkIter junk S) ops).hasNext.1 = false ∧
      (runState (NIterator.mkIter junk S) ops).next = Except.error ()) := by
  have hinv0 : ∀ (α : Type) (junk : α) (S : List α), NInv (NIterator.mkIter junk S) :=
    fun α junk S h => Option.noConfusion h
  have habs0 : ∀ (α : Type) (junk : α) (S : List α),
      absRem (NIterator.mkIter junk S) = S := fun α junk S => rfl
  refine ⟨?_, ?_, ?_⟩
  · intro α s
    cases hn : s.hNext with
    | none =>
        cases hit : s.it with
        | nil => simp [NIterator.hasNext, hn, hit]
        | cons x tl => simp [NIterator.hasNext, hn, hit]
    | some b => simp [NIterator.hasNext, hn]
  · intro α junk S ops
    have := (runOps_spec ops (NIterator.mkIter junk S) (hinv0 α junk S)).1
    rwa [habs0] at this
  · intro α junk S ops hle
    have hspec := runOps_spec ops (NIterator.mkIter junk S) (hinv0 α junk S)
    have hdrop : absRem (runState (NIterator.mkIter junk S) ops) = [] := by
      rw [hspec.2.1, habs0]
      exact List.drop_eq_nil_of_le hle
    have hinvF := hspec.2.2
    constructor
    · have := (hasNext_spec _ hinvF).1
      rw [hdrop] at this
      simpa using this
    · exact (next_spec _ hinvF).1 hdrop

theorem claim_C6_lookahead_iterator_witness :
    runOps (NIterator.mkIter 0 [1, 2])
        [ItOp.peek, ItOp.peek, ItOp.pull, ItOp.pull, ItOp.pull, ItOp.peek] = [1, 2] ∧
    (runState (NIterator.mkIter 0 [1, 2])
        [ItOp.peek, ItOp.peek, ItOp.pull, ItOp.pull, ItOp.pull, ItOp.peek]).hasNext.1 =
      false :=
  ⟨claim_C6_lookahead_iterator.2.1 Nat 0 [1, 2]
      [ItOp.peek, ItOp.peek, ItOp.pull, ItOp.pull, ItOp.pull, ItOp.peek],
   (claim_C6_lookahead_iterator.2.2 Nat 0 [1, 2]
      [ItOp.peek, ItOp.peek, ItOp.pull, ItOp.pull, ItOp.pull, ItOp.peek]
      (by decide)).1⟩

theorem dget_dput_self {α : Type} : ∀ (d : List (String × α)) (k : String) (v : α),
    dget (dput d k v) k = some v := by
  intro d k v
  induction d with
  | nil => simp [dput, dget]
  | cons kv t ih =>
      simp only [dput]
      by_cases h : kv.1 = k
      · rw [if_pos h]
        simp [dget]
      · rw [if_neg h]
        simp only [dget, if_neg h]
        exact ih

theorem dget_dput_ne {α : Type} : ∀ (d : List (String × α)) (k k2 : String) (v : α),
    k ≠ k2 → dget (dput d k2 v) k = dget d k := by
  intro d k k2 v hne
  induction d with
  | nil =>
      simp only [dput, dget]
      rw [if_neg (fun h => hne h.symm)]
  | cons kv t ih =>
      simp only [dput]
      by_cases h : kv.1 = k2
      · rw [if_pos h]
        have hk : ¬ ((k2, v).1 = k) := fun h2 => hne h2.symm
        have hkv : ¬ (kv.1 = k) := by
          rw [h]
          exact fun h2 => hne h2.symm
        simp only [dget]
        rw [if_neg hk, if_neg hkv]
      · rw [if_neg h]
        simp only [dget]
        by_cases h2 : kv.1 = k
        · rw [if_pos h2, if_pos h2]
        · rw [if_neg h2, if_neg h2]
          exact ih

theorem dget_eq_none_iff {α : Type} : ∀ (d : List (String × α)) (k : String),
    dget d k = Option.none ↔ ¬ k ∈ d.map Prod.fst := by
  intro d k
  induction d with
  | nil => simp [dget]
  | cons kv t ih =>
      simp only [dget, List.map_cons, List.mem_cons]
      by_cases h : kv.1 = k
      · rw [if_pos h]
        simp [h]
      · rw [if_neg h]
        rw [ih]
        constructor
        · intro hn hc
          rcases hc with hc | hc
          · exact h hc.symm
          · exact hn hc
        · intro hn hc
          exact hn (Or.inr hc)

theorem dget_some_mem {α : Type} : ∀ (d : List (String × α)) (k : String) (v : α),
    dget d k = some v → (k, v) ∈ d := by
  intro d k v
  induction d with
  | nil => intro h; exact Option.noConfusion h
  | cons kv t ih =>
      intro hv
      simp only [dget] at hv
      by_cases h : kv.1 = k
      · rw [if_pos h] at hv
        injection hv with hv2
        have hkv : (k, v) = kv := by
          obtain ⟨k1, v1⟩ := kv
          simp only at h hv2
          rw [← h, ← hv2]
        rw [hkv]
        exact List.mem_cons_self kv t
      · rw [if_neg h] at hv
        exact List.mem_cons_of_mem kv (ih hv)

theorem dput_of_not_mem {α : Type} : ∀ (d : List (String × α)) (k : String) (v : α),
    dget d k = Option.none → dput d k v = d ++ [(k, v)] := by
  intro d k v
  induction d with
  | nil => intro _; rfl
  | cons kv t ih =>
      simp only [dget, dput]
      by_cases h : kv.1 = k
      · rw [if_pos h]
        intro hc
        exact Option.noConfusion hc
      · rw [if_neg h, if_neg h]
        intro hn
        rw [ih hn]
        rfl

theorem keys_dput_of_mem {α : Type} : ∀ (d : List (String × α)) (k : String) (v w : α),
    dget d k = some w → (dput d k v).map Prod.fst = d.map Prod.fst := by
  intro d k v w
  induction d with
  | nil => intro h; exact Option.noConfusion h
  | cons kv t ih =>
      simp only [dget, dput]
      by_cases h : kv.1 = k
      · rw [if_pos h, if_pos h]
        simp [h]
      · rw [if_neg h, if_neg h]
        intro hw
        simp [ih hw]

theorem dget_foldl_dput_not_mem {α : Type} :
    ∀ (l acc : List (String × α)) (k : String), ¬ k ∈ l.map Prod.fst →
    dget (l.foldl (fun a kv => dput a kv.1 kv.2) acc) k = dget acc k := by
  intro l
  induction l with
  | nil => intro acc k _; rfl
  | cons kv t ih =>
      intro acc k hk
      simp only [List.map_cons, List.mem_cons] at hk
      push_neg at hk
      simp only [List.foldl_cons]
      rw [ih (dput acc kv.1 kv.2) k (by simpa using hk.2)]
      exact dget_dput_ne acc k kv.1 kv.2 hk.1

theorem dget_foldl_dput_mem {α : Type} :
    ∀ (l acc : List (String × α)) (k : String) (v : α),
    (l.map Prod.fst).Nodup → (k, v) ∈ l →
    dget (l.foldl (fun a kv => dput a kv.1 kv.2) acc) k = some v := by
  intro l
  induction l with
  | nil => intro acc k v _ hm; exact absurd hm (List.not_mem_nil _)
  | cons kv t ih =>
      intro acc k v hnod hm
      simp only [List.map_cons, List.nodup_cons] at hnod
      simp only [List.foldl_cons]
      rcases List.mem_cons.mp hm with rfl | hm2
      · rw [dget_foldl_dput_not_mem t (dput acc k v) k (by simpa using hnod.1)]
        exact dget_dput_self acc k v
      · exact ih (dput acc kv.1 kv.2) k v hnod.2 hm2

/-- The key a `from_dict` rebuild-loop entry is written to: recognized fields
keep their name, `field_map` keys are renamed, anything else is dropped. -/
def targetKey (fm : List (String × String)) (k : String) : Option String :=
  if initArgs.contains k then some k else dget fm k

theorem rebuild_fold_eq (fm : List (String × String)) :
    (fun (acc : List (String × PyVal)) (kv : String × PyVal) =>
      if initArgs.contains kv.1 then dput acc kv.1 kv.2
      else
        match dget fm kv.1 with
        | some k2 => dput acc k2 kv.2
        | Option.none => acc) =
    (fun acc kv =>
      match targetKey fm kv.1 with
      | some k2 => dput acc k2 kv.2
      | Option.none => acc) := by
  funext acc kv
  simp only [targetKey]
  by_cases h : initArgs.contains kv.1
  · rw [if_pos h, if_pos h]
  · rw [if_neg h, if_neg h]

theorem rebuild_fold_get_none (fm : List (String × String)) :
    ∀ (l : List (String × PyVal)) (acc : List (String × PyVal)) (kt : String),
    (∀ kv ∈ l, targetKey fm kv.1 ≠ some kt) →
    dget (l.foldl (fun acc kv =>
      match targetKey fm kv.1 with
      | some k2 => dput acc k2 kv.2
      | Option.none => acc) acc) kt = dget acc kt := by
  intro l
  induction l with
  | nil => intro acc kt _; rfl
  | cons kv t ih =>
      intro acc kt hno
      simp only [List.foldl_cons]
      have hkv := hno kv (List.mem_cons_self kv t)
      have hrest : ∀ kv2 ∈ t, targetKey fm kv2.1 ≠ some kt :=
        fun kv2 h2 => hno kv2 (List.mem_cons_of_mem kv h2)
      cases htv : targetKey fm kv.1 with
      | none => rw [ih acc kt hrest]
      | some k2 =>
          rw [ih (dput acc k2 kv.2) kt hrest]
          have hne : kt ≠ k2 := by
            intro he
            rw [he] at hkv
            exact hkv htv
          exact dget_dput_ne acc kt k2 kv.2 hne

theorem rebuild_fold_get (fm : List (String × String)) :
    ∀ (l : List (String × PyVal)) (acc : List (String × PyVal)) (kt : String) (w : PyVal),
    ((l.filter (fun kv => targetKey fm kv.1 == some kt)).map Prod.snd = [w]) →
    dget (l.foldl (fun acc kv =>
      match targetKey fm kv.1 with
      | some k2 => dput acc k2 kv.2
      | Option.none => acc) acc) kt = some w := by
  intro l
  induction l with
  | nil => intro acc kt w h; exact absurd h (by simp)
  | cons kv t ih =>
      intro acc kt w h
      by_cases ht : targetKey fm kv.1 = some kt
      · rw [List.filter_cons_of_pos (by simpa using ht)] at h
        simp only [List.map_cons, List.cons.injEq] at h
        obtain ⟨hw, hrest⟩ := h
        have hfil : t.filter (fun kv => targetKey fm kv.1 == some kt) = [] :=
          List.map_eq_nil_iff.mp hrest
        have hno : ∀ kv2 ∈ t, targetKey fm kv2.1 ≠ some kt := by
          intro kv2 h2 hc
          have hmem : kv2 ∈ t.filter (fun kv => targetKey fm kv.1 == some kt) :=
            List.mem_filter.mpr ⟨h2, by simpa using hc⟩
          rw [hfil] at hmem
          exact List.not_mem_nil kv2 hmem
        simp only [List.foldl_cons, ht]
        rw [rebuild_fold_get_none fm t (dput acc kt kv.2) kt hno]
        rw [hw]
        exact dget_dput_self acc kt w
      · rw [List.filter_cons_of_neg (by simpa using ht)] at h
        simp only [List.foldl_cons]
        cases htv : targetKey fm kv.1 with
        | none => exact ih acc kt w h
        | some k2 => exact ih (dput acc k2 kv.2) kt w h

theorem filter_target_singleton (fm : List (String × String)) :
    ∀ (l : List (String × PyVal)) (kt : String) (w : PyVal),
    (l.map Prod.fst).Nodup → (kt, w) ∈ l → targetKey fm kt = some kt →
    (∀ kv ∈ l, kv.1 ≠ kt → targetKey fm kv.1 ≠ some kt) →
    (l.filter (fun kv => targetKey fm kv.1 == some kt)).map Prod.snd = [w] := by
  intro l
  induction l with
  | nil => intro kt w _ hm; exact absurd hm (List.not_mem_nil _)
  | cons kv t ih =>
      intro kt w hnod hm htk hno
      simp only [List.map_cons, List.nodup_cons] at hnod
      by_cases hkv : kv.1 = kt
      · have hkvw : kv = (kt, w) := by
          rcases List.mem_cons.mp hm with he | hmt
          · exact he.symm
          · exfalso
            apply hnod.1
            rw [hkv]
            exact List.mem_map.mpr ⟨(kt, w), hmt, rfl⟩
        subst hkvw
        have hfil : t.filter (fun kv => targetKey fm kv.1 == some kt) = [] := by
          rw [List.filter_eq_nil_iff]
          intro kv2 h2
          have hne : kv2.1 ≠ kt := by
            intro he
            apply hnod.1
            rw [← he]
            exact List.mem_map.mpr ⟨kv2, h2, rfl⟩
          simpa using hno kv2 (List.mem_cons_of_mem _ h2) hne
        rw [List.filter_cons_of_pos (by simpa using htk), hfil]
        rfl
      · have hmt : (kt, w) ∈ t := by
          rcases List.mem_cons.mp hm with he | hmt
          · exact absurd (congrArg Prod.fst he.symm) hkv
          · exact hmt
        rw [List.filter_cons_of_neg
          (by simpa using hno kv (List.mem_cons_self kv t) hkv)]
        exact ih kt w hnod.2 hmt htk
          (fun kv2 h2 => hno kv2 (List.mem_cons_of_mem kv h2))

theorem mkDocument_meta : ∀ (text id sc pr qu me em ihk ut : PyVal) (doc : Document),
    mkDocument text id sc pr qu me em ihk ut = Except.ok doc →
    doc.meta = if pyTruthy me then me else PyVal.dict [] := by
  intro text id sc pr qu me em ihk ut doc h
  unfold mkDocument at h
  cases id with
  | vnone =>
      cases hg : getId text ihk ut with
      | error e =>
          rw [hg] at h
          exact Except.noConfusion h
      | ok i =>
          rw [hg] at h
          injection h with h2
          rw [← h2]
  | str s =>
      injection h with h2
      rw [← h2]
  | int n =>
      injection h with h2
      rw [← h2]
  | bool b =>
      injection h with h2
      rw [← h2]
  | dict d =>
      injection h with h2
      rw [← h2]

/-- C2 counterexample: the serialization round trip fails for the field map
`\x7b"x": "meta"\x7d` — re-parsing the emitted dict loses the document's meta
(the freshly inserted empty `meta` entry overwrites the renamed one), so
`fromDict (toDict D F) F` is not `D` for every field map `F`. -/
theorem claim_C2_counterexample :
    fromDict (toDict demoDoc [("x", "meta")]) [("x", "meta")] PyVal.vnone ≠
      Except.ok demoDoc := by
  intro h
  have hval : fromDict (toDict demoDoc [("x", "meta")]) [("x", "meta")] PyVal.vnone =
      Except.ok (⟨PyVal.str "hello", PyVal.vnone, PyVal.vnone, PyVal.vnone,
        PyVal.dict [], PyVal.vnone, "xid"⟩ : Document) := rfl
  rw [hval] at h
  injection h with h2
  have hmeta := congrArg Document.meta h2
  simp [demoDoc] at hmeta

/-- C2 (amended): with the empty field map, `from_dict` inverts `to_dict`
field by field (meta included) for every Document whose meta is a dict; and
for every input mapping with distinct keys and every field map none of whose
values is `meta`, any key that is neither a recognized field nor a field-map
key is folded with its value into the constructed Document's meta rather than
dropped. (The round trip for arbitrary field maps fails — a map renaming onto
`meta` loses it, see the counterexample — so the claim is restricted to the
empty map, and folding to maps that do not rename onto `meta`.) -/
theorem claim_C2_amended_serialization :
    (∀ (D : Document) (ml : List (String × PyVal)), D.meta = PyVal.dict ml →
      fromDict (toDict D []) [] PyVal.vnone = Except.ok D) ∧
    (∀ (m : List (String × PyVal)) (fm : List (String × String)) (ut : PyVal)
        (k : String) (v : PyVal) (doc : Document),
      keysNodup m → (k, v) ∈ m → ¬ k ∈ initArgs → dget fm k = Option.none →
      (∀ e ∈ fm, e.2 ≠ "meta") → fromDict m fm ut = Except.ok doc →
      ∃ ml2, doc.meta = PyVal.dict ml2 ∧ dget ml2 k = some v) := by
  constructor
  · intro D ml hm
    obtain ⟨tx, sc, pr, qu, me, em, i⟩ := D
    simp only at hm
    subst hm
    cases ml with
    | nil => rfl
    | cons e t => rfl
  · intro m fm ut k v doc hnod hmem hkni hfmk hfm hsucc
    simp only [fromDict] at hsucc
    set d0 := if (dget m "meta").isSome then m else dput m "meta" (PyVal.dict []) with hd0def
    set uks := d0.filter (fun kv => !(initArgs.contains kv.1) && (dget fm kv.1).isNone)
      with huksdef
    have hmem0 : (k, v) ∈ d0 := by
      rw [hd0def]
      by_cases hms : (dget m "meta").isSome = true
      · rw [if_pos hms]; exact hmem
      · rw [if_neg hms]
        have hnone : dget m "meta" = Option.none := Option.not_isSome_iff_eq_none.mp hms
        rw [dput_of_not_mem m "meta" (PyVal.dict []) hnone]
        exact List.mem_append_left _ hmem
    have hnod0 : keysNodup d0 := by
      rw [hd0def]
      by_cases hms : (dget m "meta").isSome = true
      · rw [if_pos hms]; exact hnod
      · rw [if_neg hms]
        have hnone : dget m "meta" = Option.none := Option.not_isSome_iff_eq_none.mp hms
        rw [dput_of_not_mem m "meta" (PyVal.dict []) hnone]
        rw [keysNodup, List.map_append, List.nodup_append]
        refine ⟨hnod, by simp, ?_⟩
        intro a ha hb
        simp only [List.map_cons, List.map_nil, List.mem_singleton] at hb
        subst hb
        rw [dget_eq_none_iff] at hnone
        exact hnone ha
    have hmemu : (k, v) ∈ uks := by
      rw [huksdef]
      refine List.mem_filter.mpr ⟨hmem0, ?_⟩
      simp only [Bool.and_eq_true, Bool.not_eq_true']
      constructor
      · simpa using hkni
      · simp [hfmk]
    have hnodu : (uks.map Prod.fst).Nodup := by
      rw [huksdef]
      exact List.Nodup.sublist (List.Sublist.map Prod.fst (List.filter_sublist _)) hnod0
    have hne : uks.isEmpty = false := by
      cases he : uks with
      | nil => rw [he] at hmemu; exact absurd hmemu (List.not_mem_nil _)
      | cons a b => rfl
    rw [hne] at hsucc
    simp only [Bool.false_eq_true, if_false] at hsucc
    cases hmv : dget d0 "meta" with
    | none =>
        rw [hmv] at hsucc
        exact Except.noConfusion hsucc
    | some mv =>
        cases mv with
        | str s => rw [hmv] at hsucc; exact Except.noConfusion hsucc
        | int n => rw [hmv] at hsucc; exact Except.noConfusion hsucc
        | bool b => rw [hmv] at hsucc; exact Except.noConfusion hsucc
        | vnone => rw [hmv] at hsucc; exact Except.noConfusion hsucc
        | dict ml0 =>
            rw [hmv] at hsucc
            dsimp only at hsucc
            set mlF := uks.foldl (fun acc kv => dput acc kv.1 kv.2) ml0 with hmlFdef
            set d1 := dput d0 "meta" (PyVal.dict mlF) with hd1def
            set nd0 := d1.foldl (fun acc kv =>
              if initArgs.contains kv.1 then dput acc kv.1 kv.2
              else
                match dget fm kv.1 with
                | some k2 => dput acc k2 kv.2
                | Option.none => acc) [] with hnd0def
            set nd := if pyTruthy ut then dput nd0 "uuid_type" ut else nd0 with hnddef
            have hmlFk : dget mlF k = some v := by
              rw [hmlFdef]
              exact dget_foldl_dput_mem uks ml0 k v hnodu hmemu
            have hmlFne : mlF ≠ [] := by
              intro he
              rw [he] at hmlFk
              exact Option.noConfusion hmlFk
            have hd1meta : dget d1 "meta" = some (PyVal.dict mlF) := by
              rw [hd1def]
              exact dget_dput_self d0 "meta" _
            have hnod1 : keysNodup d1 := by
              rw [hd1def, keysNodup, keys_dput_of_mem d0 "meta" _ _ hmv]
              exact hnod0
            have hmem1 : ("meta", PyVal.dict mlF) ∈ d1 := dget_some_mem d1 "meta" _ hd1meta
            have htgt : targetKey fm "meta" = some "meta" := by
              simp [targetKey, initArgs]
            have hno1 : ∀ kv ∈ d1, kv.1 ≠ "meta" → targetKey fm kv.1 ≠ some "meta" := by
              intro kv _ hkvne hc
              simp only [targetKey] at hc
              by_cases hci : initArgs.contains kv.1 = true
              · rw [if_pos hci] at hc
                injection hc with hc2
                exact hkvne hc2
              · rw [if_neg hci] at hc
                exact hfm _ (dget_some_mem fm kv.1 "meta" hc) rfl
            have hfilsing := filter_target_singleton fm d1 "meta" (PyVal.dict mlF)
              hnod1 hmem1 htgt hno1
            have hnd0meta : dget nd0 "meta" = some (PyVal.dict mlF) := by
              rw [hnd0def, rebuild_fold_eq fm]
              exact rebuild_fold_get fm d1 [] "meta" (PyVal.dict mlF) hfilsing
            have hndmeta : dget nd "meta" = some (PyVal.dict mlF) := by
              rw [hnddef]
              by_cases hu : pyTruthy ut = true
              · rw [if_pos hu]
                rw [dget_dput_ne _ _ _ _ (by decide : "meta" ≠ "uuid_type")]
                exact hnd0meta
              · rw [if_neg hu]
                exact hnd0meta
            by_cases hall : nd.all (fun kv =>
                initArgs.contains kv.1 || kv.1 == "uuid_type" || kv.1 == "id_hash_keys") = true
            · rw [if_pos hall] at hsucc
              cases htx : dget nd "text" with
              | none =>
                  rw [htx] at hsucc
                  exact Except.noConfusion hsucc
              | some t0 =>
                  rw [htx, hndmeta] at hsucc
                  simp only [Option.getD_some] at hsucc
                  have hmeta := mkDocument_meta _ _ _ _ _ _ _ _ _ doc hsucc
                  have htruthy : pyTruthy (PyVal.dict mlF) = true := by
                    cases hml : mlF with
                    | nil => exact absurd hml hmlFne
                    | cons a b => rfl
                  refine ⟨mlF, ?_, hmlFk⟩
                  rw [hmeta, if_pos htruthy]
            · rw [if_neg hall] at hsucc
              exact Except.noConfusion hsucc

theorem claim_C2_amended_serialization_witness :
    fromDict (toDict demoDoc []) [] PyVal.vnone = Except.ok demoDoc ∧
    (∃ ml2,
      (⟨PyVal.str "t", PyVal.vnone, PyVal.vnone, PyVal.vnone,
        PyVal.dict [("extra", PyVal.int 7)], PyVal.vnone,
        pyFmt02x (mmh3hash128 "t")⟩ : Document).meta = PyVal.dict ml2 ∧
      dget ml2 "extra" = some (PyVal.int 7)) :=
  ⟨claim_C2_amended_serialization.1 demoDoc [("a", PyVal.int 1)] rfl,
   claim_C2_amended_serialization.2 [("text", PyVal.str "t"), ("extra", PyVal.int 7)]
     [] PyVal.vnone "extra" (PyVal.int 7) _ (by simp [keysNodup]) (by simp) (by decide)
     rfl (by simp) rfl⟩

theorem take_set_of_le {α : Type} : ∀ (l : List α) (a : Nat) (c : α) (n : Nat), n ≤ a →
    (l.set a c).take n = l.take n := by
  intro l
  induction l with
  | nil => intro a c n _; simp
  | cons x t ih =>
      intro a c n hna
      cases a with
      | zero =>
          have hn : n = 0 := Nat.le_zero.mp hna
          simp [hn]
      | succ a2 =>
          cases n with
          | zero => simp
          | succ n2 =>
              simp only [List.set_cons_succ, List.take_succ_cons]
              rw [ih a2 c n2 (by omega)]

theorem heap_read_alloc (h : Heap) (c : List (String × HV)) :
    (h.alloc c).1.read (h.alloc c).2 = c := by
  simp [Heap.alloc, Heap.read, List.getD_eq_getElem?_getD, List.getElem?_concat_length]

theorem heap_read_write_self (h : Heap) (a : Nat) (c : List (String × HV))
    (ha : a < h.cells.length) : (h.write a c).read a = c := by
  simp [Heap.write, Heap.read, List.getD_eq_getElem?_getD, List.getElem?_set, ha]

theorem deepcopy_cells : ∀ (f : Nat),
    (∀ (h : Heap) (v : HV), ∃ ext, (deepcopyHV f h v).1.cells = h.cells ++ ext) ∧
    (∀ (h : Heap) (l : List (String × HV)), ∃ ext,
      (deepcopyEntries f h l).1.cells = h.cells ++ ext) := by
  intro f
  induction f with
  | zero =>
      have hHV : ∀ (h : Heap) (v : HV), ∃ ext,
          (deepcopyHV 0 h v).1.cells = h.cells ++ ext := by
        intro h v
        cases v with
        | prim p => exact ⟨[], by simp [deepcopyHV]⟩
        | ref a => exact ⟨[], by simp [deepcopyHV]⟩
      refine ⟨hHV, ?_⟩
      intro h l
      induction l generalizing h with
      | nil => exact ⟨[], by simp [deepcopyEntries]⟩
      | cons e t ih =>
          obtain ⟨k0, v0⟩ := e
          obtain ⟨ext1, hext1⟩ := hHV h v0
          obtain ⟨ext2, hext2⟩ := ih (deepcopyHV 0 h v0).1
          refine ⟨ext1 ++ ext2, ?_⟩
          simp only [deepcopyEntries]
          rw [hext2, hext1, List.append_assoc]
  | succ f ihf =>
      have hHV : ∀ (h : Heap) (v : HV), ∃ ext,
          (deepcopyHV (f + 1) h v).1.cells = h.cells ++ ext := by
        intro h v
        cases v with
        | prim p => exact ⟨[], by simp [deepcopyHV]⟩
        | ref a =>
            obtain ⟨ext, hext⟩ := ihf.2 h (h.read a)
            refine ⟨ext ++ [(deepcopyEntries f h (h.read a)).2], ?_⟩
            simp [deepcopyHV, Heap.alloc, hext]
      refine ⟨hHV, ?_⟩
      intro h l
      induction l generalizing h with
      | nil => exact ⟨[], by simp [deepcopyEntries]⟩
      | cons e t ih =>
          obtain ⟨k0, v0⟩ := e
          obtain ⟨ext1, hext1⟩ := hHV h v0
          obtain ⟨ext2, hext2⟩ := ih (deepcopyHV (f + 1) h v0).1
          refine ⟨ext1 ++ ext2, ?_⟩
          simp only [deepcopyEntries]
          rw [hext2, hext1, List.append_assoc]

theorem deepcopyEntries_refs_fresh : ∀ (f : Nat) (h : Heap) (l : List (String × HV)),
    1 ≤ f → ∀ kv ∈ (deepcopyEntries f h l).2,
    (∃ p, kv.2 = HV.prim p) ∨ (∃ b, kv.2 = HV.ref b ∧ h.cells.length ≤ b) := by
  intro f h l hf
  induction l generalizing h with
  | nil => intro kv hkv; simp [deepcopyEntries] at hkv
  | cons e t ih =>
      intro kv hkv
      obtain ⟨k0, v0⟩ := e
      simp only [deepcopyEntries] at hkv
      rcases List.mem_cons.mp hkv with rfl | hmem
      · cases v0 with
        | prim p => exact Or.inl ⟨p, by simp [deepcopyHV]⟩
        | ref b =>
            right
            obtain ⟨f3, rfl⟩ : ∃ f3, f = f3 + 1 := ⟨f - 1, by omega⟩
            refine ⟨(deepcopyEntries f3 h (h.read b)).1.cells.length,
              by simp [deepcopyHV, Heap.alloc], ?_⟩
            obtain ⟨ext, hext⟩ := (deepcopy_cells f3).2 h (h.read b)
            simp [hext]
      · have hrec := ih (deepcopyHV f h v0).1 kv hmem
        rcases hrec with hp | ⟨b, hb, hble⟩
        · exact Or.inl hp
        · right
          refine ⟨b, hb, ?_⟩
          obtain ⟨ext, hext⟩ := (deepcopy_cells f).1 h v0
          have : h.cells.length ≤ (deepcopyHV f h v0).1.cells.length := by simp [hext]
          omega

/-- C10: `Document.from_dict` never modifies its input mapping. In the
heap model, where the caller's argument dict lives in cell `a0` and may
reference further dict objects (e.g. a nested `meta` sub-mapping) in other
cells, running `from_dict` leaves every pre-existing heap cell exactly as it
was: the deep copy allocates fresh cells, the ensured `meta` entry is a fresh
empty dict, and the unknown-key folding writes only into a freshly copied or
freshly allocated cell — so the post-call heap extends the original
cell-for-cell even though unknown keys were folded into the result's meta. -/
theorem claim_C10_from_dict_pure (h : Heap) (a0 : Nat) (fm : List (String × String))
    (ut : PyVal) :
    (fromDictH h a0 fm ut).2.cells.take h.cells.length = h.cells ∧
    h.cells.length ≤ (fromDictH h a0 fm ut).2.cells.length := by
  by_cases hlen0 : h.cells.length = 0
  · have hnil : h.cells = [] := List.length_eq_zero.mp hlen0
    rw [hlen0]
    exact ⟨by simp [hnil], Nat.zero_le _⟩
  have hlen1 : 1 ≤ h.cells.length := by omega
  have hcopy : deepcopyHV (h.cells.length + 1) h (HV.ref a0) =
      (((deepcopyEntries h.cells.length h (h.read a0)).1.alloc
          (deepcopyEntries h.cells.length h (h.read a0)).2).1,
        HV.ref ((deepcopyEntries h.cells.length h (h.read a0)).1.alloc
          (deepcopyEntries h.cells.length h (h.read a0)).2).2) := by
    simp [deepcopyHV]
  simp only [fromDictH, hcopy]
  set A := deepcopyEntries h.cells.length h (h.read a0) with hAdef
  obtain ⟨ext0, hext0⟩ := (deepcopy_cells h.cells.length).2 h (h.read a0)
  rw [← hAdef] at hext0
  set h1 := (A.1.alloc A.2).1 with hh1def
  set c0 := (A.1.alloc A.2).2 with hc0def
  have hh1cells : h1.cells = A.1.cells ++ [A.2] := by simp [hh1def, Heap.alloc]
  have hreadc0 : h1.read c0 = A.2 := heap_read_alloc A.1 A.2
  have hc0ge : h.cells.length ≤ c0 := by
    rw [hc0def]
    simp [Heap.alloc, hext0]
  have hc0lt : c0 < h1.cells.length := by
    rw [hc0def, hh1cells]
    simp [Heap.alloc]
  have htake1 : h1.cells.take h.cells.length = h.cells := by
    rw [hh1cells, hext0, List.append_assoc]
    exact List.take_left h.cells _
  have hlen1h : h.cells.length ≤ h1.cells.length := by
    rw [hh1cells, hext0]
    simp
  have hfresh : ∀ kv ∈ A.2, (∃ p, kv.2 = HV.prim p) ∨
      (∃ b, kv.2 = HV.ref b ∧ h.cells.length ≤ b) := by
    rw [hAdef]
    exact deepcopyEntries_refs_fresh h.cells.length h (h.read a0) hlen1
  have tailFrame : ∀ (H2 : Heap),
      H2.cells.take h.cells.length = h.cells →
      h.cells.length ≤ H2.cells.length →
      (∀ am, dget (H2.read c0) "meta" = some (HV.ref am) → h.cells.length ≤ am) →
      (let cell := H2.read c0
       let unknowns := cell.filter (fun kv : String × HV =>
         !(initArgs.contains kv.1) && (dget fm kv.1).isNone)
       let folded : Option Heap :=
         if unknowns.isEmpty then some H2
         else
           match dget cell "meta" with
           | some (HV.ref am) =>
               some (H2.write am (unknowns.foldl
                 (fun (acc : List (String × HV)) (kv : String × HV) => dput acc kv.1 kv.2)
                 (H2.read am)))
           | _ => Option.none
       match folded with
       | Option.none =>
           (Except.error "TypeError: object does not support item assignment", H2)
       | some h3 =>
           let cell3 := h3.read c0
           let newDoc := cell3.foldl
             (fun (acc : List (String × HV)) (kv : String × HV) =>
               if initArgs.contains kv.1 then dput acc kv.1 kv.2
               else
                 match dget fm kv.1 with
                 | some k2 => dput acc k2 kv.2
                 | Option.none => acc) ([] : List (String × HV))
           let newDoc :=
             if pyTruthy ut then dput newDoc "uuid_type" (HV.prim ut) else newDoc
           if newDoc.all (fun kv : String × HV =>
               initArgs.contains kv.1 || kv.1 == "uuid_type" || kv.1 == "id_hash_keys") then
             match dget newDoc "text" with
             | Option.none => (Except.error "TypeError: missing required argument text", h3)
             | some t =>
                 let fuel3 := h3.cells.length + 1
                 let arg := fun key =>
                   materializeHV fuel3 h3 ((dget newDoc key).getD (HV.prim PyVal.vnone))
                 (mkDocument (materializeHV fuel3 h3 t) (arg "id") (arg "score")
                   (arg "probability") (arg "question") (arg "meta") (arg "embedding")
                   (arg "id_hash_keys") (arg "uuid_type"), h3)
           else (Except.error "TypeError: unexpected keyword argument", h3)).2.cells.take
        h.cells.length = h.cells ∧
      h.cells.length ≤ (let cell := H2.read c0
       let unknowns := cell.filter (fun kv : String × HV =>
         !(initArgs.contains kv.1) && (dget fm kv.1).isNone)
       let folded : Option Heap :=
         if unknowns.isEmpty then some H2
         else
           match dget cell "meta" with
           | some (HV.ref am) =>
               some (H2.write am (unknowns.foldl
                 (fun (acc : List (String × HV)) (kv : String × HV) => dput acc kv.1 kv.2)
                 (H2.read am)))
           | _ => Option.none
       match folded with
       | Option.none =>
           (Except.error "TypeError: object does not support item assignment", H2)
       | some h3 =>
           let cell3 := h3.read c0
           let newDoc := cell3.foldl
             (fun (acc : List (String × HV)) (kv : String × HV) =>
               if initArgs.contains kv.1 then dput acc kv.1 kv.2
               else
                 match dget fm kv.1 with
                 | some k2 => dput acc k2 kv.2
                 | Option.none => acc) ([] : List (String × HV))
           let newDoc :=
             if pyTruthy ut then dput newDoc "uuid_type" (HV.prim ut) else newDoc
           if newDoc.all (fun kv : String × HV =>
               initArgs.contains kv.1 || kv.1 == "uuid_type" || kv.1 == "id_hash_keys") then
             match dget newDoc "text" with
             | Option.none => (Except.error "TypeError: missing required argument text", h3)
             | some t =>
                 let fuel3 := h3.cells.length + 1
                 let arg := fun key =>
                   materializeHV fuel3 h3 ((dget newDoc key).getD (HV.prim PyVal.vnone))
                 (mkDocument (materializeHV fuel3 h3 t) (arg "id") (arg "score")
                   (arg "probability") (arg "question") (arg "meta") (arg "embedding")
                   (arg "id_hash_keys") (arg "uuid_type"), h3)
           else (Except.error "TypeError: unexpected keyword argument", h3)).2.cells.length := by
    intro H2 htake2 hlen2 hamf
    have htake3 : ∀ (am : Nat) (c : List (String × HV)), h.cells.length ≤ am →
        (H2.write am c).cells.take h.cells.length = h.cells := by
      intro am c ham
      show (H2.cells.set am c).take h.cells.length = h.cells
      rw [take_set_of_le H2.cells am c h.cells.length ham]
      exact htake2
    have hlen3 : ∀ (am : Nat) (c : List (String × HV)),
        h.cells.length ≤ (H2.write am c).cells.length := by
      intro am c
      show h.cells.length ≤ (H2.cells.set am c).length
      rw [List.length_set]
      exact hlen2
    dsimp only
    by_cases hemp : (List.filter (fun kv : String × HV =>
        !(initArgs.contains kv.1) && (dget fm kv.1).isNone) (H2.read c0)).isEmpty = true
    · rw [if_pos hemp]
      dsimp only
      repeat' split
      all_goals exact ⟨htake2, hlen2⟩
    · rw [if_neg hemp]
      cases hdm : dget (H2.read c0) "meta" with
      | none =>
          dsimp only
          exact ⟨htake2, hlen2⟩
      | some mv =>
          cases mv with
          | prim p =>
              dsimp only
              exact ⟨htake2, hlen2⟩
          | ref am =>
              dsimp only
              repeat' split
              all_goals exact ⟨htake3 _ _ (hamf _ hdm), hlen3 _ _⟩
  by_cases hms : (dget (h1.read c0) "meta").isSome = true
  · rw [if_pos hms]
    have hamf1 : ∀ am, dget (h1.read c0) "meta" = some (HV.ref am) →
        h.cells.length ≤ am := by
      intro am hdm
      rw [hreadc0] at hdm
      have hmem := dget_some_mem _ _ _ hdm
      rcases hfresh _ hmem with ⟨p, hp⟩ | ⟨b, hb, hble⟩
      · exact absurd hp (by simp)
      · simp only at hb
        injection hb with hb2
        rw [hb2]
        exact hble
    exact tailFrame h1 htake1 hlen1h hamf1
  · rw [if_neg hms]
    have hreadal : ((h1.alloc []).1).read c0 = A.2 := by
      have : (h1.alloc []).1.cells = h1.cells ++ [[]] := by simp [Heap.alloc]
      show ((h1.alloc []).1).read c0 = A.2
      rw [← hreadc0]
      simp only [Heap.read, this]
      exact List.getD_append _ _ _ _ hc0lt
    have hc0lt2 : c0 < ((h1.alloc []).1).cells.length := by
      have : (h1.alloc []).1.cells = h1.cells ++ [[]] := by simp [Heap.alloc]
      rw [this]
      simp
      omega
    have hread2 : (((h1.alloc []).1).write c0
        (dput (((h1.alloc []).1).read c0) "meta" (HV.ref (h1.alloc []).2))).read c0 =
        dput (((h1.alloc []).1).read c0) "meta" (HV.ref (h1.alloc []).2) :=
      heap_read_write_self _ c0 _ hc0lt2
    have htake2 : (((h1.alloc []).1).write c0
        (dput (((h1.alloc []).1).read c0) "meta" (HV.ref (h1.alloc []).2))).cells.take
        h.cells.length = h.cells := by
      show (((h1.alloc []).1).cells.set c0 _).take h.cells.length = h.cells
      rw [take_set_of_le _ c0 _ h.cells.length hc0ge]
      have : (h1.alloc []).1.cells = h1.cells ++ [[]] := by simp [Heap.alloc]
      rw [this, List.take_append_of_le_length hlen1h]
      exact htake1
    have hlen2 : h.cells.length ≤ (((h1.alloc []).1).write c0
        (dput (((h1.alloc []).1).read c0) "meta" (HV.ref (h1.alloc []).2))).cells.length := by
      show h.cells.length ≤ (((h1.alloc []).1).cells.set c0 _).length
      rw [List.length_set]
      have : (h1.alloc []).1.cells = h1.cells ++ [[]] := by simp [Heap.alloc]
      rw [this]
      simp
      omega
    have hamf2 : ∀ am, dget ((((h1.alloc []).1).write c0
        (dput (((h1.alloc []).1).read c0) "meta" (HV.ref (h1.alloc []).2))).read c0)
        "meta" = some (HV.ref am) → h.cells.length ≤ am := by
      intro am hdm
      rw [hread2] at hdm
      rw [dget_dput_self] at hdm
      injection hdm with hdm2
      injection hdm2 with hdm3
      rw [← hdm3]
      have : (h1.alloc []).2 = h1.cells.length := by simp [Heap.alloc]
      rw [this]
      omega
    exact tailFrame _ htake2 hlen2 hamf2

end Jam
